import Mathlib

/-!
Verification of the screen-model extraction and code-generation pipeline of
`android_auto_script_generator.py` (davidkon/ui_automator), via a shallow
embedding in Lean 4.

Modelling conventions, common to all definitions below:
* Python strings are Lean `String`s (manipulated through their `List Char`
  data).  An attribute that is absent from an element's info map, or present
  with value `None`, is modelled as the empty string `""` (the code reads
  every such attribute with `info.get(key, '')` or uses it only through
  truthiness, where `None` and `''` coincide).
* The `bounds` dictionary is `Option Bounds` (`none` models a missing /
  empty bounds dictionary).
* Interactive `input()` streams are lists of strings; a prompt reached with
  the stream exhausted models `EOFError`, so interactive routines return
  `Option` results (`none` = the Python code would raise out of the
  routine).
* A raw element handle whose `.info` read raises, or whose info map is
  falsy, is modelled as `none : Option Info` (both paths `continue` without
  touching any state in the source).
-/

namespace UiAutomatorSpec

/-- Rectangle bounds of a UI node, as the four ordered values of the
Python `bounds` dictionary (insertion order `left, top, right, bottom`). -/
structure Bounds where
  left : Int
  top : Int
  right : Int
  bottom : Int
deriving DecidableEq

/-- The attribute map of one raw UI element handle, as read from
`elem.info` in `get_screen_elements`. -/
structure Info where
  resourceId : String
  text : String
  className : String
  contentDescription : String
  bounds : Option Bounds
  clickable : Bool
  longClickable : Bool
  scrollable : Bool
  checkable : Bool
  checked : Bool
  editable : Bool
deriving DecidableEq

/-- The fixed allow-list `EDITABLE_CLASS_NAMES` of `get_screen_elements`. -/
def EDITABLE_CLASS_NAMES : List String :=
  ["android.widget.EditText", "android.widget.AutoCompleteTextView", "android.webkit.WebView"]

/-- A selector dictionary as built by `get_screen_elements`: the builder
only ever populates the keys `resourceId`, `text`, `description`,
`className`; a `none` field models an absent key. -/
structure Selector where
  resourceId : Option String := none
  text : Option String := none
  description : Option String := none
  className : Option String := none
deriving DecidableEq

/-- One catalog entry (the `element_data` dictionary of
`get_screen_elements`). -/
structure ElementData where
  text : String
  resource_id : String
  class_name : String
  description : String
  bounds : Option Bounds
  clickable : Bool
  long_clickable : Bool
  scrollable : Bool
  checkable : Bool
  checked : Bool
  editable : Bool
  selector : Selector
deriving DecidableEq

instance : Inhabited ElementData :=
  ⟨{ text := "", resource_id := "", class_name := "", description := "", bounds := none,
     clickable := false, long_clickable := false, scrollable := false, checkable := false,
     checked := false, editable := false, selector := {} }⟩

/-- `tuple(info.get('bounds', {}).values())`: the ordered values of the
bounds dictionary, empty when the dictionary is missing or empty. -/
def boundsTuple : Option Bounds → List Int
  | none => []
  | some b => [b.left, b.top, b.right, b.bottom]

/-- The dedup signature `(resourceId, text, className, bounds_tuple,
contentDescription)` computed for each raw element. -/
def sigOfInfo (i : Info) : String × String × String × List Int × String :=
  (i.resourceId, i.text, i.className, boundsTuple i.bounds, i.contentDescription)

/-- The same signature tuple recomputed from a catalog entry's fields
(`element_data` stores exactly the signature's components). -/
def sigOfElement (e : ElementData) : String × String × String × List Int × String :=
  (e.resource_id, e.text, e.class_name, boundsTuple e.bounds, e.description)

/-- `is_editable`: the info's own `editable` flag, or membership of the
class name in the editable allow-list. -/
def isEditableOf (i : Info) : Bool :=
  i.editable || EDITABLE_CLASS_NAMES.contains i.className

/-- The admission test of `get_screen_elements`: at least one of
clickable, longClickable, scrollable, checkable or (derived) editable. -/
def admitsInfo (i : Info) : Bool :=
  i.clickable || i.longClickable || i.scrollable || i.checkable || isEditableOf i

/-- The selector construction of `get_screen_elements` (strict priority:
resourceId, then text (+className), then description (+className), then
className, then empty). -/
def buildSelector (res_id text desc class_name : String) : Selector :=
  if res_id ≠ "" then { resourceId := some res_id }
  else if text ≠ "" then
    { text := some text, className := if class_name ≠ "" then some class_name else none }
  else if desc ≠ "" then
    { description := some desc, className := if class_name ≠ "" then some class_name else none }
  else if class_name ≠ "" then { className := some class_name }
  else {}

/-- The `element_data` dictionary built for one admitted raw element. -/
def buildElementData (i : Info) : ElementData :=
  { text := i.text, resource_id := i.resourceId, class_name := i.className,
    description := i.contentDescription, bounds := i.bounds,
    clickable := i.clickable, long_clickable := i.longClickable,
    scrollable := i.scrollable, checkable := i.checkable, checked := i.checked,
    editable := isEditableOf i,
    selector := buildSelector i.resourceId i.text i.contentDescription i.className }

/-- The outcome of one access of the `elem.info` property.  Every access
performs a fresh device call, which can raise, return a falsy value
(`None`), or return a truthy attribute map. -/
inductive InfoRead where
  | raises
  | falsy
  | ok (i : Info)
deriving DecidableEq

/-- One raw element handle from the query phase.  Because `elem.info` is a
fresh device call on every access, the loop body's read and the `except`
handler's own accesses are independent outcomes: `read` is the body's
`info = elem.info`, `handlerCond` is the handler's `if elem.info` test and
`handlerGet` its subsequent `elem.info.get('resourceId', 'N/A')` access
(line 139), performed only when `handlerCond` saw a truthy value. -/
structure RawElement where
  read : InfoRead
  handlerCond : InfoRead
  handlerGet : InfoRead
deriving DecidableEq

/-- Control flow of one iteration of the per-element loop.
`some (some i)`: the body proceeds with the truthy map `i`.  `some none`:
the iteration is skipped (`continue`) -- the body read a falsy info, or it
raised and the handler's diagnostic print completed.  `none`: the body's
read raised and the handler's own `elem.info` access raised again (or its
condition saw a truthy value whose second access raised or returned
`None`, whose `.get` raises): that second exception occurs outside any
`try` and escapes `get_screen_elements`. -/
def elementStep (r : RawElement) : Option (Option Info) :=
  match r.read with
  | .ok i => some (some i)
  | .falsy => some none
  | .raises =>
    match r.handlerCond with
    | .raises => none
    | .falsy => some none
    | .ok _ =>
      match r.handlerGet with
      | .raises => none
      | .falsy => none
      | .ok _ => some none

/-- The truthy info map the loop body reads from a raw element, when it
reads one. -/
def readInfo (r : RawElement) : Option Info :=
  match r.read with
  | .ok i => some i
  | .falsy => none
  | .raises => none

/-- A healthy raw element: every `elem.info` access returns the map `i`. -/
def rawOk (i : Info) : RawElement :=
  { read := .ok i, handlerCond := .ok i, handlerGet := .ok i }

/-- A raw element whose inspection fails transiently: the body's read
raises, but the handler's re-reads see the map `i`. -/
def rawRecovered (i : Info) : RawElement :=
  { read := .raises, handlerCond := .ok i, handlerGet := .ok i }

/-- A raw element whose info map reads as falsy (the handler never runs
for it, so its handler fields are irrelevant). -/
def rawFalsy : RawElement :=
  { read := .falsy, handlerCond := .falsy, handlerGet := .falsy }

/-- A raw element whose inspection failure persists: the body's read
raises, and the handler's own re-read raises again. -/
def rawFailing : RawElement :=
  { read := .raises, handlerCond := .raises, handlerGet := .raises }

/-- The success path of the per-element loop, over the truthy info maps the
body actually read, with the `processed_elements_signatures` set carried
explicitly (`seen`). -/
def gatherInfos : List Info →
    List (String × String × String × List Int × String) → List ElementData
  | [], _ => []
  | i :: rest, seen =>
    if sigOfInfo i ∈ seen then gatherInfos rest seen
    else if admitsInfo i then buildElementData i :: gatherInfos rest (sigOfInfo i :: seen)
    else gatherInfos rest (sigOfInfo i :: seen)

/-- The per-element loop of `get_screen_elements` over raw element handles.
A result of `none` models an exception escaping the loop: when an
iteration's `elem.info` read raises and the `except` handler's own
`elem.info` access (line 139) raises too, that second exception is
uncaught and the partial catalog is lost. -/
def gatherElements : List RawElement →
    List (String × String × String × List Int × String) → Option (List ElementData)
  | [], _ => some []
  | r :: rest, seen =>
    match elementStep r with
    | none => none
    | some none => gatherElements rest seen
    | some (some i) =>
      if sigOfInfo i ∈ seen then gatherElements rest seen
      else if admitsInfo i then
        (gatherElements rest (sigOfInfo i :: seen)).map (fun es => buildElementData i :: es)
      else gatherElements rest (sigOfInfo i :: seen)

/-- `get_screen_elements`, as a function of the concatenated raw query
results (`elements_to_check`).  `some` is the returned catalog; `none`
models an exception escaping the function from inside the per-element
`except` handler.  A transport-level query failure yields an empty raw
list and hence an empty catalog, which this function also covers. -/
def get_screen_elements (raws : List RawElement) : Option (List ElementData) :=
  gatherElements raws []

/-! ### Normalization (`normalize_to_snake_case`) -/

/-- Membership in the kept character class `[a-z0-9_]` of the regex
`re.sub(r'[^a-z0-9_]', '', text)`. -/
def isKeptChar (c : Char) : Bool :=
  (('a' ≤ c && c ≤ 'z') || ('0' ≤ c && c ≤ '9') || c = '_')

/-- `re.sub(r'\s+', '_', text)`: each maximal run of whitespace becomes a
single underscore.  The flag records whether the previous character was
whitespace (i.e. whether we are inside a run). -/
def squashWhitespace : Bool → List Char → List Char
  | _, [] => []
  | true, c :: cs =>
    if c.isWhitespace then squashWhitespace true cs else c :: squashWhitespace false cs
  | false, c :: cs =>
    if c.isWhitespace then '_' :: squashWhitespace true cs else c :: squashWhitespace false cs

/-- `re.sub(r'_+', '_', text)`: each maximal run of underscores becomes a
single underscore. -/
def squashUnderscores : Bool → List Char → List Char
  | _, [] => []
  | true, c :: cs =>
    if c = '_' then squashUnderscores true cs else c :: squashUnderscores false cs
  | false, c :: cs =>
    if c = '_' then '_' :: squashUnderscores true cs else c :: squashUnderscores false cs

/-- Python `text.strip('_')`: drop leading and trailing underscores. -/
def stripUnderscores (l : List Char) : List Char :=
  ((l.dropWhile (fun c => c = '_')).reverse.dropWhile (fun c => c = '_')).reverse

/-- Python `text.split('.')[-1]`: the substring after the last dot (the
whole string when no dot occurs). -/
def lastDotSegment (l : List Char) : List Char :=
  (l.reverse.takeWhile (fun c => c ≠ '.')).reverse

/-- The character-list pipeline of `normalize_to_snake_case` up to (and
excluding) the final emptiness / leading-digit checks. -/
def normalizePipeline (l : List Char) : List Char :=
  let l := if l.contains '.' && l.count '.' > 1 then lastDotSegment l else l
  let l := l.map Char.toLower
  let l := squashWhitespace false l
  let l := l.filter isKeptChar
  let l := squashUnderscores false l
  stripUnderscores l

/-- `normalize_to_snake_case` of `android_auto_script_generator.py`
(lines 144-160). -/
def normalize_to_snake_case (text : String) : String :=
  if text = "" then "unnamed_screen"
  else
    match normalizePipeline text.toList with
    | [] => "unnamed_screen"
    | c :: cs => if c.isDigit then "screen_" ++ String.mk (c :: cs) else String.mk (c :: cs)

/-- The `normalize_to_snake_case` re-emitted inside the shared helper block:
transcribed from the `normalize_code_for_helper` string literal of
`generate_screen_recognition_helpers_string` (lines 387-404).  The emitted
source performs, in order: the empty check, the multi-dot split, lowering,
`re.sub(r'\s+', '_', ...)`, `re.sub(r'[^a-z0-9_]', '', ...)`,
`re.sub(r'_+', '_', ...)`, `strip('_')`, the empty check, the leading-digit
prefix - the same steps with the same constants. -/
def helperNormalizeToSnakeCase (text : String) : String :=
  if text = "" then "unnamed_screen"
  else
    let l := text.toList
    let l := if l.contains '.' && l.count '.' > 1 then lastDotSegment l else l
    let l := l.map Char.toLower
    let l := squashWhitespace false l
    let l := l.filter isKeptChar
    let l := squashUnderscores false l
    let l := stripUnderscores l
    match l with
    | [] => "unnamed_screen"
    | c :: cs => if c.isDigit then "screen_" ++ String.mk (c :: cs) else String.mk (c :: cs)

/-! ### Screen name generation (`generate_screen_name`) -/

/-- Python substring test `pat in l` on character lists. -/
def containsSub (l pat : List Char) : Bool :=
  match l with
  | [] => pat.isEmpty
  | _ :: rest => pat.isPrefixOf l || containsSub rest pat

/-- The title heuristic on a lower-cased resource id: `"title" in res_id or
"action_bar_title" in res_id or "toolbar_title" in res_id`. -/
def isTitleLikeId (res_id : String) : Bool :=
  let rid := res_id.toList.map Char.toLower
  containsSub rid "title".toList || containsSub rid "action_bar_title".toList ||
    containsSub rid "toolbar_title".toList

/-- Comparison of sort keys `el.get('bounds', {}).get('top'/'left',
float('inf'))`: a missing bounds dictionary sorts as plus infinity
(modelled by `none`). -/
def leInf (a b : Option Int) : Bool :=
  match a, b with
  | none, none => true
  | none, some _ => false
  | some _, none => true
  | some x, some y => x ≤ y

/-- Key equality for the lexicographic tuple comparison (`inf == inf` is
true for Python floats). -/
def eqInf (a b : Option Int) : Bool :=
  match a, b with
  | none, none => true
  | some x, some y => x = y
  | _, _ => false

/-- The sort key order of `generate_screen_name`: lexicographic on
`(bounds.top, bounds.left)` with missing bounds last. -/
def textViewKeyLE (a b : ElementData) : Bool :=
  let ta := a.bounds.map Bounds.top
  let tb := b.bounds.map Bounds.top
  if eqInf ta tb then leInf (a.bounds.map Bounds.left) (b.bounds.map Bounds.left)
  else leInf ta tb

/-- Insert `x` after every already-placed element `y` with `le y x`
(so equal keys keep their arrival order). -/
def insertSorted (le : α → α → Bool) (x : α) : List α → List α
  | [] => [x]
  | y :: ys => if le y x then y :: insertSorted le x ys else x :: y :: ys

/-- A stable sort (Python `list.sort` is stable): fold the list left to
right, inserting each element after its key-ties. -/
def stableSortBy (le : α → α → Bool) (l : List α) : List α :=
  l.foldl (fun acc x => insertSorted le x acc) []

/-- `generate_screen_name` (lines 162-213).  `activity` models
`device.app_current().get('activity', '')`, with a transport exception or a
missing key modelled as `""` (the code resets `potential_name` to `""` on
exception). -/
def generate_screen_name (elements : List ElementData) (activity : String) : String :=
  let text_views := elements.filter
    (fun el => el.class_name = "android.widget.TextView" && el.text ≠ "")
  let sorted := stableSortBy textViewKeyLE text_views
  let potential :=
    match sorted.find? (fun tv => isTitleLikeId tv.resource_id && tv.text ≠ "") with
    | some tv => tv.text
    | none => ""
  let potential :=
    if potential = "" then
      match sorted.find? (fun tv => tv.text ≠ "") with
      | some tv => tv.text
      | none => ""
    else potential
  let potential := if potential = "" then activity else potential
  let potential := if potential = "" then "Unnamed Screen" else potential
  normalize_to_snake_case potential

/-! ### Python string `repr` and literal parsing

`generate_python_function` renders text payloads with Python's `repr`.
`pyRepr` models `repr` on strings: quote choice (single quote unless the
string holds a single quote and no double quote), backslash-escaping of the
backslash and the chosen quote, `\n`/`\r`/`\t` escapes, printable ASCII
kept verbatim, and `\xhh`/`\uhhhh`/`\Uhhhhhhhh` hex escapes otherwise.
(CPython additionally prints printable non-ASCII characters verbatim;
the model escapes them, which parses back to the same string, so the
round-trip property is unaffected.)  `parsePyStringLiteral` reads such a
literal back, as Python's own literal grammar does. -/

/-- Lowercase hex digit of `n % 16`, as CPython's escapes print them. -/
def hexDigitChar (n : Nat) : Char :=
  if n < 10 then Char.ofNat (48 + n) else Char.ofNat (87 + n)

/-- Two lowercase hex digits of `n < 0x100`, big-endian. -/
def hex2 (n : Nat) : List Char := [hexDigitChar (n / 16 % 16), hexDigitChar (n % 16)]

/-- Four lowercase hex digits of `n < 0x10000`, big-endian. -/
def hex4 (n : Nat) : List Char :=
  [hexDigitChar (n / 4096 % 16), hexDigitChar (n / 256 % 16),
   hexDigitChar (n / 16 % 16), hexDigitChar (n % 16)]

/-- Eight lowercase hex digits of `n < 0x100000000`, big-endian. -/
def hex8 (n : Nat) : List Char :=
  [hexDigitChar (n / 268435456 % 16), hexDigitChar (n / 16777216 % 16),
   hexDigitChar (n / 1048576 % 16), hexDigitChar (n / 65536 % 16),
   hexDigitChar (n / 4096 % 16), hexDigitChar (n / 256 % 16),
   hexDigitChar (n / 16 % 16), hexDigitChar (n % 16)]

/-- Printable ASCII (kept verbatim by `repr` unless it is the quote or a
backslash). -/
def pyPrintableAscii (c : Char) : Bool := 32 ≤ c.toNat && c.toNat < 127

/-- How `repr` renders one character inside a literal quoted by `q`. -/
def escapeChar (q c : Char) : List Char :=
  if c = '\\' then ['\\', '\\']
  else if c = q then ['\\', q]
  else if c = '\n' then ['\\', 'n']
  else if c = '\r' then ['\\', 'r']
  else if c = '\t' then ['\\', 't']
  else if pyPrintableAscii c then [c]
  else if c.toNat < 256 then '\\' :: 'x' :: hex2 c.toNat
  else if c.toNat < 65536 then '\\' :: 'u' :: hex4 c.toNat
  else '\\' :: 'U' :: hex8 c.toNat

/-- The quote `repr` picks: a single quote, unless the string holds a
single quote and no double quote. -/
def pyReprQuote (s : String) : Char :=
  if s.toList.contains '\'' && !(s.toList.contains '"') then '"' else '\''

/-- Python `repr` on a string. -/
def pyRepr (s : String) : String :=
  let q := pyReprQuote s
  String.mk (q :: s.toList.flatMap (escapeChar q) ++ [q])

/-- Value of one hex digit character (Python's literal grammar accepts
both cases). -/
def hexVal (c : Char) : Option Nat :=
  if '0' ≤ c && c ≤ '9' then some (c.toNat - 48)
  else if 'a' ≤ c && c ≤ 'f' then some (c.toNat - 87)
  else if 'A' ≤ c && c ≤ 'F' then some (c.toNat - 55)
  else none

/-- The character with Unicode scalar value `n`, when `n` is one. -/
def charFromCode (n : Nat) : Option Char :=
  if h : n.isValidChar then some (Char.ofNatAux n h) else none

/-- Parse the body of a Python string literal quoted by `q`: the decoded
characters, provided the closing quote ends the input.  Handles the
escape forms `repr` emits (`\\`, `\'`, `\"`, `\n`, `\r`, `\t`, `\xhh`,
`\uhhhh`, `\Uhhhhhhhh`).  The `fuel` argument, decremented once per
decoded character, only drives the structural recursion: any value at
least the decoded length plus one behaves identically, and
`parsePyStringLiteral` passes the literal's length, which is always
enough. -/
def parseLiteralBody : Nat → Char → List Char → Option (List Char)
  | _, _, [] => none
  | 0, _, _ :: _ => none
  | fuel + 1, q, c :: rest =>
    if c = '\\' then
      match rest with
      | [] => none
      | e :: rest' =>
        if e = '\\' then (parseLiteralBody fuel q rest').map (fun l => ('\\' : Char) :: l)
        else if e = '\'' then (parseLiteralBody fuel q rest').map (fun l => ('\'' : Char) :: l)
        else if e = '"' then (parseLiteralBody fuel q rest').map (fun l => ('"' : Char) :: l)
        else if e = 'n' then (parseLiteralBody fuel q rest').map (fun l => ('\n' : Char) :: l)
        else if e = 'r' then (parseLiteralBody fuel q rest').map (fun l => ('\r' : Char) :: l)
        else if e = 't' then (parseLiteralBody fuel q rest').map (fun l => ('\t' : Char) :: l)
        else if e = 'x' then
          match rest' with
          | h1 :: h2 :: r =>
            match hexVal h1, hexVal h2 with
            | some v1, some v2 =>
              match charFromCode (16 * v1 + v2) with
              | some c' => (parseLiteralBody fuel q r).map (fun l => c' :: l)
              | none => none
            | _, _ => none
          | _ => none
        else if e = 'u' then
          match rest' with
          | h1 :: h2 :: h3 :: h4 :: r =>
            match hexVal h1, hexVal h2, hexVal h3, hexVal h4 with
            | some v1, some v2, some v3, some v4 =>
              match charFromCode (16 * (16 * (16 * v1 + v2) + v3) + v4) with
              | some c' => (parseLiteralBody fuel q r).map (fun l => c' :: l)
              | none => none
            | _, _, _, _ => none
          | _ => none
        else if e = 'U' then
          match rest' with
          | h1 :: h2 :: h3 :: h4 :: h5 :: h6 :: h7 :: h8 :: r =>
            match hexVal h1, hexVal h2, hexVal h3, hexVal h4,
                  hexVal h5, hexVal h6, hexVal h7, hexVal h8 with
            | some v1, some v2, some v3, some v4, some v5, some v6, some v7, some v8 =>
              match charFromCode (16 * (16 * (16 * (16 * (16 * (16 * (16 * v1 + v2) + v3)
                  + v4) + v5) + v6) + v7) + v8) with
              | some c' => (parseLiteralBody fuel q r).map (fun l => c' :: l)
              | none => none
            | _, _, _, _, _, _, _, _ => none
          | _ => none
        else none
    else if c = q then (if rest.isEmpty then some [] else none)
    else (parseLiteralBody fuel q rest).map (fun l => c :: l)

/-- Parse a complete Python string literal back to the string it denotes. -/
def parsePyStringLiteral (s : String) : Option String :=
  match s.toList with
  | [] => none
  | q :: rest =>
    if q = '\'' || q = '"' then (parseLiteralBody rest.length q rest).map String.mk
    else none

/-! ### Code emission (`_build_selector_string`, `generate_python_function`) -/

/-- The key/value pairs of a selector dictionary in the preferred key order
`resourceId, text, description, className` of `_build_selector_string`
(the catalog builder populates no other keys, so the trailing
remaining-keys loop of the source contributes nothing). -/
def selectorPairs (sel : Selector) : List (String × String) :=
  (match sel.resourceId with | some v => [("resourceId", v)] | none => []) ++
  (match sel.text with | some v => [("text", v)] | none => []) ++
  (match sel.description with | some v => [("description", v)] | none => []) ++
  (match sel.className with | some v => [("className", v)] | none => [])

/-- `_build_selector_string` (lines 447-471): comma-joined `key=repr(value)`
parts, keys in preferred order, falsy (empty) values skipped. -/
def build_selector_string (sel : Selector) : String :=
  String.intercalate ", "
    (((selectorPairs sel).filter (fun kv => kv.2 ≠ "")).map
      (fun kv => kv.1 ++ "=" ++ pyRepr kv.2))

/-- A recorded action dictionary (the tagged variants built by
`build_actions_for_screen`). -/
inductive Action where
  | click (element_selector : Selector) (description : String)
  | set_text (element_selector : Selector) (text : String) (description : String)
  | scroll (element_selector : Selector) (direction : String) (description : String)
  | swipe (direction : String) (description : String)
  | scroll_to_text (scroll_element_selector : Selector) (target_text : String)
      (direction : String) (description : String)
deriving DecidableEq

/-- The fixed stability-delay statement emitted after every action. -/
def sleepLine : String := "    time.sleep(0.5) # Stability delay"

/-- `fling` method chosen for a `scroll` action's direction (the recorder
only ever stores one of the four validated directions, so the `forward`
fallback of the source is unreachable there, but is modelled). -/
def flingMethod (direction : String) : String :=
  if direction = "up" then "up"
  else if direction = "down" then "down"
  else if direction = "left" then "left"
  else if direction = "right" then "right"
  else "forward"

/-- The statement(s) emitted for one recorded action inside
`generate_python_function` (lines 485-526): one primitive call and the
stability delay. -/
def emitActionLines (a : Action) : List String :=
  match a with
  | .click sel _ =>
    ["    d(" ++ build_selector_string sel ++ ").click()", sleepLine]
  | .set_text sel text _ =>
    ["    d(" ++ build_selector_string sel ++ ").set_text(" ++ pyRepr text ++ ")", sleepLine]
  | .scroll sel direction _ =>
    ["    d(" ++ build_selector_string sel ++ ").fling." ++ flingMethod direction ++ "()",
     sleepLine]
  | .swipe direction _ =>
    ["    d.swipe_ext(\"" ++ direction ++ "\")", sleepLine]
  | .scroll_to_text sel target_text _ _ =>
    ["    d(" ++ build_selector_string sel ++ ").scroll.to(text=" ++ pyRepr target_text ++ ")",
     sleepLine]

/-- `generate_python_function` (lines 474-532): signature line, docstring,
trace print, then the emitted statements (or `pass` when no action was
recorded). -/
def generate_python_function (screen_name : String) (recorded_actions : List Action) : String :=
  let header := ["def " ++ screen_name ++ "(d):",
    "    \"\"\"Automates actions on the " ++ screen_name ++ " screen.\"\"\"",
    "    print(f'Executing actions for " ++ screen_name ++ " screen...')"]
  let lines :=
    if recorded_actions.isEmpty then header ++ ["    pass"]
    else
      let ls := header ++ recorded_actions.flatMap emitActionLines
      if ls.length ≤ 3 then ls ++ ["    pass"] else ls
  String.intercalate "\n" lines

/-! ### The interactive action recorder (`build_actions_for_screen`)

Operator prompts are modelled by a list of raw input strings; every
`input()` consumes the next one, and a prompt reached with the list empty
models `EOFError` (the Python code would propagate it out of the
recorder), making the recorder's result an `Option`. -/

/-- Python `str.strip()` (whitespace from both ends). -/
def pyStrip (s : String) : String :=
  String.mk (((s.toList.dropWhile Char.isWhitespace).reverse.dropWhile
    Char.isWhitespace).reverse)

/-- Python `str.lower()` (on the ASCII range the recorder compares against). -/
def pyLower (s : String) : String := String.mk (s.toList.map Char.toLower)

/-- Accumulate decimal digits; fail on a non-digit. -/
def digitsToNatAux : Nat → List Char → Option Nat
  | acc, [] => some acc
  | acc, c :: cs =>
    if c.isDigit then digitsToNatAux (10 * acc + (c.toNat - 48)) cs else none

/-- A non-empty all-digit run's value. -/
def digitsToNat? : List Char → Option Nat
  | [] => none
  | l => digitsToNatAux 0 l

/-- Python `int(s)` on an already-stripped string: optional sign, then
decimal digits; anything else raises `ValueError` (`none`). -/
def pyInt? (s : String) : Option Int :=
  match s.toList with
  | '-' :: rest => (digitsToNat? rest).map (fun n => -(n : Int))
  | '+' :: rest => (digitsToNat? rest).map (fun n => (n : Int))
  | l => (digitsToNat? l).map (fun n => (n : Int))

/-- `_get_user_choice` (lines 535-544): consume inputs until one parses as
an integer within `[lo, hi]`; `none` = the input stream ran dry. -/
def _get_user_choice (lo hi : Int) : List String → Option (Int × List String)
  | [] => none
  | s :: rest =>
    match pyInt? (pyStrip s) with
    | some n => if lo ≤ n && n ≤ hi then some (n, rest) else _get_user_choice lo hi rest
    | none => _get_user_choice lo hi rest

/-- The re-prompt loop of `_get_element_from_list` over a non-empty element
list: 1-indexed, re-prompts on out-of-range or non-numeric input. -/
def selectFromList (elements : List ElementData) : List String → Option (ElementData × List String)
  | [] => none
  | s :: rest =>
    match pyInt? (pyStrip s) with
    | some n =>
      if 1 ≤ n && n ≤ (elements.length : Int) then
        some (elements.getD (n - 1).toNat default, rest)
      else selectFromList elements rest
    | none => selectFromList elements rest

/-- `_get_element_from_list` (lines 546-558): an empty element list returns
Python `None` at once (inner `none`) without consuming input; otherwise the
re-prompt loop runs.  The outer `none` is input exhaustion. -/
def _get_element_from_list (elements : List ElementData) (inputs : List String) :
    Option (Option ElementData × List String) :=
  if elements.isEmpty then some (none, inputs)
  else
    match selectFromList elements inputs with
    | none => none
    | some (e, rest) => some (some e, rest)

/-- `_get_element_description` (lines 560-576) with the default
`default_name="element"`. -/
def _get_element_description (element_data : Option ElementData) : String :=
  match element_data with
  | none => "element"
  | some el =>
    if el.text ≠ "" then "'" ++ el.text ++ "' (" ++ el.class_name ++ ")"
    else if el.resource_id ≠ "" then "ID:'" ++ el.resource_id ++ "' (" ++ el.class_name ++ ")"
    else if el.description ≠ "" then "Desc:'" ++ el.description ++ "' (" ++ el.class_name ++ ")"
    else el.class_name

/-- The six recognized `scroll_to_text` directions. -/
def scroll_direction_options : List String :=
  ["forward", "backward", "vertical_forward", "vertical_backward",
   "horizontal_forward", "horizontal_backward"]

/-- The direction stored for a `scroll`/`swipe` action: the stripped,
lower-cased raw input when it is one of the four recognized directions,
else the `"down"` default. -/
def scrollDirection (dRaw : String) : String :=
  if pyLower (pyStrip dRaw) = "up" || pyLower (pyStrip dRaw) = "down" ||
      pyLower (pyStrip dRaw) = "left" || pyLower (pyStrip dRaw) = "right" then
    pyLower (pyStrip dRaw)
  else "down"

/-- The direction stored for a `scroll_to_text` action: the stripped,
lower-cased raw input when recognized, else the `"forward"` default. -/
def scrollToTextDirection (dRaw : String) : String :=
  if scroll_direction_options.contains (pyLower (pyStrip dRaw)) then pyLower (pyStrip dRaw)
  else "forward"

/-- Each accepted `_get_user_choice` call consumed at least one input. -/
theorem get_user_choice_length {lo hi : Int} :
    ∀ {inputs : List String} {c : Int} {r : List String},
      _get_user_choice lo hi inputs = some (c, r) → r.length < inputs.length := by
  intro inputs
  induction inputs with
  | nil => intro c r h; simp [_get_user_choice] at h
  | cons s rest ih =>
    intro c r h
    simp only [_get_user_choice] at h
    rcases hp : pyInt? (pyStrip s) with _ | n <;> simp only [hp] at h
    · exact Nat.lt_succ_of_lt (ih h)
    · split at h
      · cases h
        exact Nat.lt_succ_self _
      · exact Nat.lt_succ_of_lt (ih h)

/-- The element re-prompt loop also consumes at least one input. -/
theorem selectFromList_length {elements : List ElementData} :
    ∀ {inputs : List String} {e : ElementData} {r : List String},
      selectFromList elements inputs = some (e, r) → r.length < inputs.length := by
  intro inputs
  induction inputs with
  | nil => intro e r h; simp [selectFromList] at h
  | cons s rest ih =>
    intro e r h
    simp only [selectFromList] at h
    rcases hp : pyInt? (pyStrip s) with _ | n <;> simp only [hp] at h
    · exact Nat.lt_succ_of_lt (ih h)
    · split at h
      · cases h
        exact Nat.lt_succ_self _
      · exact Nat.lt_succ_of_lt (ih h)

/-- `_get_element_from_list` never grows the input stream. -/
theorem get_element_from_list_length {elements : List ElementData}
    {inputs : List String} {x : Option ElementData} {r : List String}
    (h : _get_element_from_list elements inputs = some (x, r)) :
    r.length ≤ inputs.length := by
  unfold _get_element_from_list at h
  by_cases he : elements.isEmpty
  · rw [if_pos he] at h
    cases h
    exact Nat.le_refl _
  · rw [if_neg he] at h
    rcases hs : selectFromList elements inputs with _ | ⟨e, rest⟩ <;> rw [hs] at h
    · exact absurd h (by simp)
    · cases h
      exact Nat.le_of_lt (selectFromList_length hs)

/-- The recording loop of `build_actions_for_screen` (lines 586-700),
with the accumulated `recorded_actions` made explicit.  Every branch
mirrors the source: choice 5 finishes and returns the accumulated list;
choices 1-4 first run the element selection; rejected validations
(`set_text` on a non-editable element, `scroll_to_text` on a
non-scrollable container or with empty target text) `continue` without
recording; accepted ones append exactly one action and `continue`. -/
def recordLoop (elements : List ElementData) (acc : List Action) (inputs : List String) :
    Option (List Action) :=
  match h1 : _get_user_choice 1 5 inputs with
  | none => none
  | some (choice, r1) =>
    if choice = 5 then some acc
    else
      match h2 : _get_element_from_list elements r1 with
      | none => none
      | some (none, r2) => recordLoop elements acc r2
      | some (some el, r2) =>
        if choice = 1 then
          recordLoop elements
            (acc ++ [Action.click el.selector
              ("Click on " ++ _get_element_description (some el))]) r2
        else if choice = 2 then
          if el.editable = false then recordLoop elements acc r2
          else
            match r2 with
            | [] => none
            | t :: r3 =>
              recordLoop elements
                (acc ++ [Action.set_text el.selector (pyStrip t)
                  ("Enter text '" ++ pyStrip t ++ "' into " ++
                   _get_element_description (some el))]) r3
        else if choice = 3 then
          match r2 with
          | [] => none
          | dRaw :: r3 =>
            if el.scrollable then
              recordLoop elements
                (acc ++ [Action.scroll el.selector (scrollDirection dRaw)
                  ("Scroll " ++ _get_element_description (some el) ++ " " ++
                   scrollDirection dRaw)]) r3
            else
              recordLoop elements
                (acc ++ [Action.swipe (scrollDirection dRaw)
                  ("Swipe screen " ++ scrollDirection dRaw)]) r3
        else
          if el.scrollable = false then recordLoop elements acc r2
          else
            match r2 with
            | [] => none
            | t :: r3 =>
              if pyStrip t = "" then recordLoop elements acc r3
              else
                match r3 with
                | [] => none
                | dRaw :: r4 =>
                  recordLoop elements
                    (acc ++ [Action.scroll_to_text el.selector (pyStrip t)
                      (scrollToTextDirection dRaw)
                      ("Scroll " ++ _get_element_description (some el) ++ " " ++
                       scrollToTextDirection dRaw ++ " until element with text '" ++
                       pyStrip t ++ "' is visible")]) r4
  termination_by inputs.length
  decreasing_by
  all_goals
    first
    | exact Nat.lt_of_le_of_lt (get_element_from_list_length h2) (get_user_choice_length h1)
    | · have hle := get_element_from_list_length h2
        have hlt := get_user_choice_length h1
        simp only [List.length_cons] at *
        omega

/-- `build_actions_for_screen` (lines 579-701): an empty catalog returns
the empty action list at once; otherwise the recording loop starts from an
empty accumulated list.  (The `device` and `screen_name` parameters of the
source are used only for prompts and never influence the result.) -/
def build_actions_for_screen (elements : List ElementData) (inputs : List String) :
    Option (List Action) :=
  if elements.isEmpty then some [] else recordLoop elements [] inputs

/-! ### Catalog lemmas -/

/-- A catalog entry stores exactly the components of its raw signature. -/
theorem sigOfElement_build (i : Info) : sigOfElement (buildElementData i) = sigOfInfo i := rfl

/-- A skipped iteration (falsy info, or a failure whose handler print
completed) leaves the seen-set and the output untouched, wherever in the
raw list it occurs. -/
theorem gather_skip :
    ∀ (pre : List RawElement) (r : RawElement) (post : List RawElement)
      (seen : List (String × String × String × List Int × String)),
      elementStep r = some none →
      gatherElements (pre ++ r :: post) seen = gatherElements (pre ++ post) seen := by
  intro pre
  induction pre with
  | nil =>
    intro r post seen hr
    simp only [List.nil_append, gatherElements, hr]
  | cons r0 pre ih =>
    intro r post seen hr
    simp only [List.cons_append, gatherElements]
    rcases hstep : elementStep r0 with _ | _ | i
    · rfl
    · exact ih r post seen hr
    show (if sigOfInfo i ∈ seen then gatherElements (pre ++ r :: post) seen
      else if admitsInfo i = true then
        Option.map (fun es => buildElementData i :: es)
          (gatherElements (pre ++ r :: post) (sigOfInfo i :: seen))
      else gatherElements (pre ++ r :: post) (sigOfInfo i :: seen)) =
      if sigOfInfo i ∈ seen then gatherElements (pre ++ post) seen
      else if admitsInfo i = true then
        Option.map (fun es => buildElementData i :: es)
          (gatherElements (pre ++ post) (sigOfInfo i :: seen))
      else gatherElements (pre ++ post) (sigOfInfo i :: seen)
    by_cases hmem : sigOfInfo i ∈ seen
    · rw [if_pos hmem, if_pos hmem]
      exact ih r post seen hr
    rw [if_neg hmem, if_neg hmem]
    by_cases hadm : admitsInfo i = true
    · rw [if_pos hadm, if_pos hadm, ih r post _ hr]
    · rw [if_neg hadm, if_neg hadm]
      exact ih r post _ hr

/-- A persistently failing inspection aborts the whole build, wherever in
the raw list it occurs: the handler re-raises and no catalog is returned. -/
theorem gather_abort :
    ∀ (pre : List RawElement) (r : RawElement) (post : List RawElement)
      (seen : List (String × String × String × List Int × String)),
      elementStep r = none →
      gatherElements (pre ++ r :: post) seen = none := by
  intro pre
  induction pre with
  | nil =>
    intro r post seen hr
    simp only [List.nil_append, gatherElements, hr]
  | cons r0 pre ih =>
    intro r post seen hr
    simp only [List.cons_append, gatherElements]
    rcases hstep : elementStep r0 with _ | _ | i
    · rfl
    · exact ih r post seen hr
    show (if sigOfInfo i ∈ seen then gatherElements (pre ++ r :: post) seen
      else if admitsInfo i = true then
        Option.map (fun es => buildElementData i :: es)
          (gatherElements (pre ++ r :: post) (sigOfInfo i :: seen))
      else gatherElements (pre ++ r :: post) (sigOfInfo i :: seen)) = none
    by_cases hmem : sigOfInfo i ∈ seen
    · rw [if_pos hmem]
      exact ih r post seen hr
    rw [if_neg hmem]
    by_cases hadm : admitsInfo i = true
    · rw [if_pos hadm, ih r post _ hr]
      rfl
    · rw [if_neg hadm]
      exact ih r post _ hr

/-- A skipped iteration read no truthy info. -/
theorem readInfo_of_skip : ∀ (r : RawElement), elementStep r = some none →
    readInfo r = none := by
  intro r h
  obtain ⟨rd, hc, hg⟩ := r
  cases rd with
  | raises => rfl
  | falsy => rfl
  | ok i => exact absurd h (by simp [elementStep])

/-- An iteration that proceeds with `i` read exactly the truthy map `i`. -/
theorem readInfo_of_proceed : ∀ (r : RawElement) (i : Info),
    elementStep r = some (some i) → readInfo r = some i := by
  intro r i h
  obtain ⟨rd, hc, hg⟩ := r
  cases rd with
  | falsy => exact absurd h (by simp [elementStep])
  | ok j =>
    have hj : j = i := by simpa [elementStep] using h
    simp [readInfo, hj]
  | raises =>
    rcases hc with _ | _ | k
    · exact absurd h (by simp [elementStep])
    · exact absurd h (by simp [elementStep])
    · rcases hg with _ | _ | m
      · exact absurd h (by simp [elementStep])
      · exact absurd h (by simp [elementStep])
      · exact absurd h (by simp [elementStep])

/-- Whenever the build completes, its catalog is the success path run over
the truthy infos the body read, in order. -/
theorem gather_some :
    ∀ (raws : List RawElement)
      (seen : List (String × String × String × List Int × String))
      (es : List ElementData),
      gatherElements raws seen = some es →
      es = gatherInfos (raws.filterMap readInfo) seen := by
  intro raws
  induction raws with
  | nil =>
    intro seen es h
    simp only [gatherElements, Option.some.injEq] at h
    rw [← h]
    rfl
  | cons r rest ih =>
    intro seen es h
    simp only [gatherElements] at h
    revert h
    rcases hstep : elementStep r with _ | _ | i <;> intro h
    · exact Option.noConfusion (show (none : Option (List ElementData)) = some es from h)
    · simp only [List.filterMap_cons, readInfo_of_skip r hstep]
      exact ih seen es h
    · simp only [List.filterMap_cons, readInfo_of_proceed r i hstep]
      simp only [gatherInfos]
      replace h : (if sigOfInfo i ∈ seen then gatherElements rest seen
        else if admitsInfo i = true then
          Option.map (fun es => buildElementData i :: es)
            (gatherElements rest (sigOfInfo i :: seen))
        else gatherElements rest (sigOfInfo i :: seen)) = some es := h
      by_cases hmem : sigOfInfo i ∈ seen
      · rw [if_pos hmem] at h ⊢
        exact ih seen es h
      rw [if_neg hmem] at h ⊢
      by_cases hadm : admitsInfo i = true
      · rw [if_pos hadm] at h ⊢
        obtain ⟨es2, h1, h2⟩ := Option.map_eq_some'.mp h
        rw [← h2, ih _ es2 h1]
      · rw [if_neg hadm] at h ⊢
        exact ih _ es h

/-- Once a signature is recorded as seen, no later entry carries it. -/
theorem gather_filter_seen :
    ∀ (infos : List Info) (seen : List (String × String × String × List Int × String))
      (σ : String × String × String × List Int × String), σ ∈ seen →
      (gatherInfos infos seen).filter (fun e => sigOfElement e = σ) = [] := by
  intro infos
  induction infos with
  | nil => intro seen σ _; rfl
  | cons i rest ih =>
    intro seen σ hσ
    simp only [gatherInfos]
    by_cases hmem : sigOfInfo i ∈ seen
    · rw [if_pos hmem]
      exact ih seen σ hσ
    · rw [if_neg hmem]
      have hne : ¬ sigOfElement (buildElementData i) = σ := by
        rw [sigOfElement_build]
        intro hEq
        exact hmem (hEq ▸ hσ)
      by_cases hadm : admitsInfo i = true
      · rw [if_pos hadm]
        rw [List.filter_cons_of_neg (by simpa using hne)]
        exact ih _ σ (List.mem_cons_of_mem _ hσ)
      · rw [if_neg hadm]
        exact ih _ σ (List.mem_cons_of_mem _ hσ)

/-- When every read info passes the admission test, the entries carrying an
unseen signature are exactly one: the one built from the first occurrence
of that signature. -/
theorem gather_filter_first :
    ∀ (infos : List Info) (seen : List (String × String × String × List Int × String))
      (σ : String × String × String × List Int × String), σ ∉ seen →
      (∀ i ∈ infos, admitsInfo i = true) →
      ∀ i0, infos.find? (fun i => sigOfInfo i = σ) = some i0 →
      (gatherInfos infos seen).filter (fun e => sigOfElement e = σ) = [buildElementData i0] := by
  intro infos
  induction infos with
  | nil => intro seen σ _ _ i0 h0; simp at h0
  | cons i rest ih =>
    intro seen σ hσ hadm i0 h0
    simp only [gatherInfos]
    by_cases hiσ : sigOfInfo i = σ
    · have hi0 : i0 = i := by
        rw [List.find?_cons_of_pos _ (by simpa using hiσ)] at h0
        exact (Option.some.injEq _ _ ▸ h0).symm
      rw [hi0]
      have hmem : sigOfInfo i ∉ seen := hiσ ▸ hσ
      rw [if_neg hmem, if_pos (hadm i (List.mem_cons_self i _))]
      rw [List.filter_cons_of_pos (by simpa using (sigOfElement_build i).trans hiσ)]
      rw [gather_filter_seen _ _ σ (hiσ ▸ List.mem_cons_self _ _)]
    · rw [List.find?_cons_of_neg _ (by simpa using hiσ)] at h0
      have hadm' : ∀ j ∈ rest, admitsInfo j = true :=
        fun j hj => hadm j (List.mem_cons_of_mem _ hj)
      by_cases hmem : sigOfInfo i ∈ seen
      · rw [if_pos hmem]
        exact ih seen σ hσ hadm' i0 h0
      · rw [if_neg hmem]
        have hσ' : σ ∉ sigOfInfo i :: seen := by
          intro hc
          rcases List.mem_cons.mp hc with hc | hc
          · exact hiσ hc.symm
          · exact hσ hc
        by_cases hadmi : admitsInfo i = true
        · rw [if_pos hadmi]
          rw [List.filter_cons_of_neg (by simpa using fun h => hiσ ((sigOfElement_build i) ▸ h))]
          exact ih _ σ hσ' hadm' i0 h0
        · rw [if_neg hadmi]
          exact ih _ σ hσ' hadm' i0 h0

/-- Every catalog entry is built from some raw info. -/
theorem mem_gather :
    ∀ (infos : List Info) (seen : List (String × String × String × List Int × String))
      (e : ElementData), e ∈ gatherInfos infos seen → ∃ i, e = buildElementData i := by
  intro infos
  induction infos with
  | nil => intro seen e h; simp [gatherInfos] at h
  | cons i rest ih =>
    intro seen e h
    simp only [gatherInfos] at h
    by_cases hmem : sigOfInfo i ∈ seen
    · exact ih seen e (by rwa [if_pos hmem] at h)
    · rw [if_neg hmem] at h
      by_cases hadm : admitsInfo i = true
      · rw [if_pos hadm] at h
        rcases List.mem_cons.mp h with h | h
        · exact ⟨i, h⟩
        · exact ih _ e h
      · rw [if_neg hadm] at h
        exact ih _ e h

/-! ### Sample data used by concrete witnesses -/

/-- A clickable button with both a resource id and a text, as a raw info map. -/
def infoButton : Info :=
  { resourceId := "app:id/next", text := "Next", className := "android.widget.Button",
    contentDescription := "", bounds := some ⟨0, 10, 100, 60⟩, clickable := true,
    longClickable := false, scrollable := false, checkable := false, checked := false,
    editable := false }

/-- A second raw query result with the same signature as `infoButton`
(capability flags may differ between two query snapshots; the signature
ignores them). -/
def infoButtonDup : Info := { infoButton with checked := true }

/-! ### Claim C1 -/

/-- C1: for every build that completes (the function returns a catalog)
and in which every read raw query result passes the admission test (as
results of the capability/class queries do: each query predicate implies
admission), any signature carried by at least two raw results is carried
by exactly one catalog entry, namely the one built from the first raw
occurrence of that signature, in its discovery position. -/
theorem claim_C1_dedup_unique (raws : List RawElement) (es : List ElementData)
    (σ : String × String × String × List Int × String)
    (hes : get_screen_elements raws = some es)
    (hadm : ∀ i ∈ raws.filterMap readInfo, admitsInfo i = true)
    (hdup : 2 ≤ (raws.filterMap readInfo).countP (fun i => sigOfInfo i = σ)) :
    ∃ i0, (raws.filterMap readInfo).find? (fun i => sigOfInfo i = σ) = some i0 ∧
      es.filter (fun e => sigOfElement e = σ) = [buildElementData i0] ∧
      es.countP (fun e => sigOfElement e = σ) = 1 := by
  have hpos : 0 < (raws.filterMap readInfo).countP (fun i => decide (sigOfInfo i = σ)) :=
    lt_of_lt_of_le (by norm_num) hdup
  obtain ⟨i, hmem, hp⟩ := List.countP_pos_iff.mp hpos
  have hsome : ((raws.filterMap readInfo).find? (fun i => decide (sigOfInfo i = σ))).isSome :=
    List.find?_isSome.mpr ⟨i, hmem, hp⟩
  obtain ⟨i0, hfind⟩ := Option.isSome_iff_exists.mp hsome
  have hgather := gather_some raws [] es hes
  refine ⟨i0, hfind, ?_, ?_⟩
  · rw [hgather]
    exact gather_filter_first _ [] σ (by simp) hadm i0 hfind
  · rw [hgather, List.countP_eq_length_filter,
      gather_filter_first _ [] σ (by simp) hadm i0 hfind]
    rfl

/-- Concrete C1 witness: two healthy raw results with the signature of
`infoButton`; the build completes and the catalog keeps exactly the first. -/
theorem claim_C1_dedup_unique_witness :
    ∃ i0, ([rawOk infoButton, rawOk infoButtonDup].filterMap readInfo).find?
        (fun i => sigOfInfo i = sigOfInfo infoButton) = some i0 ∧
      [buildElementData infoButton].filter
        (fun e => sigOfElement e = sigOfInfo infoButton) = [buildElementData i0] ∧
      [buildElementData infoButton].countP
        (fun e => sigOfElement e = sigOfInfo infoButton) = 1 :=
  claim_C1_dedup_unique [rawOk infoButton, rawOk infoButtonDup] [buildElementData infoButton]
    (sigOfInfo infoButton) (by decide) (by decide) (by decide)

/-! ### Claim C2 -/

/-- C2: in every completed build, the selector of every catalog entry
follows the strict priority chain: a non-empty resourceId yields a
resourceId-only selector whatever the other fields hold; otherwise text
(with className added only when non-empty), otherwise description
(likewise), otherwise className alone, otherwise the empty selector. -/
theorem claim_C2_selector_priority (raws : List RawElement) (es : List ElementData)
    (hes : get_screen_elements raws = some es) (e : ElementData) (he : e ∈ es) :
    (e.resource_id ≠ "" → e.selector = { resourceId := some e.resource_id }) ∧
    (e.resource_id = "" → e.text ≠ "" →
      e.selector = { text := some e.text,
                     className := if e.class_name ≠ "" then some e.class_name else none }) ∧
    (e.resource_id = "" → e.text = "" → e.description ≠ "" →
      e.selector = { description := some e.description,
                     className := if e.class_name ≠ "" then some e.class_name else none }) ∧
    (e.resource_id = "" → e.text = "" → e.description = "" → e.class_name ≠ "" →
      e.selector = { className := some e.class_name }) ∧
    (e.resource_id = "" → e.text = "" → e.description = "" → e.class_name = "" →
      e.selector = {}) := by
  rw [gather_some raws [] es hes] at he
  obtain ⟨i, rfl⟩ := mem_gather _ [] e he
  refine ⟨?_, ?_, ?_, ?_, ?_⟩
  · intro h1
    simp only [buildElementData] at h1 ⊢
    simp [buildSelector, h1]
  · intro h1 h2
    simp only [buildElementData] at h1 h2 ⊢
    simp [buildSelector, h1, h2]
  · intro h1 h2 h3
    simp only [buildElementData] at h1 h2 h3 ⊢
    simp [buildSelector, h1, h2, h3]
  · intro h1 h2 h3 h4
    simp only [buildElementData] at h1 h2 h3 h4 ⊢
    simp [buildSelector, h1, h2, h3, h4]
  · intro h1 h2 h3 h4
    simp only [buildElementData] at h1 h2 h3 h4 ⊢
    simp [buildSelector, h1, h2, h3, h4]

/-- Concrete C2 witness: `infoButton` has both a resource id and a text,
and its catalog entry's selector carries the resource id only. -/
theorem claim_C2_selector_priority_witness :
    get_screen_elements [rawOk infoButton] = some [buildElementData infoButton] ∧
      (buildElementData infoButton).selector = { resourceId := some "app:id/next" } :=
  ⟨by decide,
    (claim_C2_selector_priority [rawOk infoButton] [buildElementData infoButton] (by decide)
      (buildElementData infoButton) (by decide)).1 (by decide)⟩

/-! ### Claim C5 -/

/-- C5 (refuted -- a bug in the code's error path): a per-element
inspection failure is swallowed only when the info map was merely falsy or
the `except` handler's own fresh `elem.info` access succeeds; when the
failing read keeps failing -- the claim's own example of a failure while
reading the info map -- the handler's diagnostic print (line 139)
re-raises outside any `try`, the exception escapes `get_screen_elements`,
and the whole partial catalog is lost.  The last conjunct shows a concrete
build that is aborted by a single persistently failing element. -/
theorem claim_C5_inspection_failure_propagates :
    (∀ (pre post : List RawElement),
      get_screen_elements (pre ++ rawFailing :: post) = none) ∧
    (∀ (pre post : List RawElement) (i : Info),
      get_screen_elements (pre ++ rawRecovered i :: post) =
        get_screen_elements (pre ++ post)) ∧
    (∀ (pre post : List RawElement),
      get_screen_elements (pre ++ rawFalsy :: post) =
        get_screen_elements (pre ++ post)) ∧
    get_screen_elements [rawOk infoButton, rawFailing] = none :=
  ⟨fun pre post => gather_abort pre rawFailing post [] rfl,
   fun pre post i => gather_skip pre (rawRecovered i) post [] rfl,
   fun pre post => gather_skip pre rawFalsy post [] rfl,
   by decide⟩

/-! ### Normalization lemmas -/

/-- All characters of the list are in the kept class `[a-z0-9_]`. -/
def keptList (l : List Char) : Prop := ∀ c ∈ l, isKeptChar c = true

/-- No two adjacent underscores. -/
def noDoubleUnderscore (l : List Char) : Prop :=
  List.Chain' (fun a b => ¬(a = '_' ∧ b = '_')) l

theorem toNat_of_kept {c : Char} (h : isKeptChar c = true) :
    (97 ≤ c.toNat ∧ c.toNat ≤ 122) ∨ (48 ≤ c.toNat ∧ c.toNat ≤ 57) ∨ c.toNat = 95 := by
  simp only [isKeptChar, Bool.or_eq_true, Bool.and_eq_true, decide_eq_true_eq] at h
  rcases h with (⟨h1, h2⟩ | ⟨h1, h2⟩) | h3
  · exact Or.inl ⟨h1, h2⟩
  · exact Or.inr (Or.inl ⟨h1, h2⟩)
  · exact Or.inr (Or.inr (by rw [h3]; rfl))

theorem toLower_of_kept {c : Char} (h : isKeptChar c = true) : c.toLower = c := by
  have h2 := toNat_of_kept h
  unfold Char.toLower
  rw [if_neg (by omega)]

theorem not_whitespace_of_kept {c : Char} (h : isKeptChar c = true) :
    c.isWhitespace = false := by
  have h2 := toNat_of_kept h
  have hs : c ≠ ' ' := by rintro rfl; revert h2; decide
  have ht : c ≠ '\t' := by rintro rfl; revert h2; decide
  have hr : c ≠ '\x0d' := by rintro rfl; revert h2; decide
  have hn : c ≠ '\n' := by rintro rfl; revert h2; decide
  simp [Char.isWhitespace, hs, ht, hr, hn]

theorem ne_dot_of_kept {c : Char} (h : isKeptChar c = true) : c ≠ '.' := by
  have h2 := toNat_of_kept h
  rintro rfl
  revert h2
  decide

theorem mem_squashUnderscores :
    ∀ (l : List Char) (b : Bool) (c : Char), c ∈ squashUnderscores b l → c ∈ l ∨ c = '_' := by
  intro l
  induction l with
  | nil => intro b c h; cases b <;> simp [squashUnderscores] at h
  | cons a as ih =>
    intro b c h
    by_cases ha : a = '_'
    · cases b with
      | true =>
        simp only [squashUnderscores, if_pos ha] at h
        rcases ih true c h with h | h
        · exact Or.inl (List.mem_cons_of_mem _ h)
        · exact Or.inr h
      | false =>
        simp only [squashUnderscores, if_pos ha] at h
        rcases List.mem_cons.mp h with h | h
        · exact Or.inr h
        · rcases ih true c h with h | h
          · exact Or.inl (List.mem_cons_of_mem _ h)
          · exact Or.inr h
    · cases b with
      | true =>
        simp only [squashUnderscores, if_neg ha] at h
        rcases List.mem_cons.mp h with h | h
        · exact Or.inl (h ▸ List.mem_cons_self _ _)
        · rcases ih false c h with h | h
          · exact Or.inl (List.mem_cons_of_mem _ h)
          · exact Or.inr h
      | false =>
        simp only [squashUnderscores, if_neg ha] at h
        rcases List.mem_cons.mp h with h | h
        · exact Or.inl (h ▸ List.mem_cons_self _ _)
        · rcases ih false c h with h | h
          · exact Or.inl (List.mem_cons_of_mem _ h)
          · exact Or.inr h

theorem chain_squashUnderscores :
    ∀ (l : List Char) (b : Bool), noDoubleUnderscore (squashUnderscores b l) ∧
      (b = true → (squashUnderscores b l).head? ≠ some '_') := by
  intro l
  induction l with
  | nil =>
    intro b
    cases b <;> exact ⟨List.chain'_nil, fun _ => by simp [squashUnderscores]⟩
  | cons a as ih =>
    intro b
    by_cases ha : a = '_'
    · cases b with
      | true =>
        simp only [squashUnderscores, if_pos ha]
        exact ⟨(ih true).1, fun _ => (ih true).2 rfl⟩
      | false =>
        simp only [squashUnderscores, if_pos ha]
        refine ⟨List.chain'_cons'.mpr ⟨?_, (ih true).1⟩, fun h => by cases h⟩
        intro y hy hcon
        exact (ih true).2 rfl (hcon.2 ▸ hy)
    · cases b with
      | true =>
        simp only [squashUnderscores, if_neg ha]
        refine ⟨List.chain'_cons'.mpr ⟨fun y _ hcon => ha hcon.1, (ih false).1⟩, fun _ => ?_⟩
        simp only [List.head?_cons, ne_eq, Option.some.injEq]
        exact fun h => ha h
      | false =>
        simp only [squashUnderscores, if_neg ha]
        exact ⟨List.chain'_cons'.mpr ⟨fun y _ hcon => ha hcon.1, (ih false).1⟩,
          fun h => by cases h⟩

theorem squashUnderscores_id :
    ∀ (l : List Char) (b : Bool), noDoubleUnderscore l →
      (b = true → l.head? ≠ some '_') → squashUnderscores b l = l := by
  intro l
  induction l with
  | nil => intro b _ _; cases b <;> rfl
  | cons a as ih =>
    intro b hnd hb
    have htail0 : noDoubleUnderscore as := (List.chain'_cons'.mp hnd).2
    cases b with
    | true =>
      have ha : ¬a = '_' := by
        intro he
        exact hb rfl (by rw [he]; rfl)
      simp only [squashUnderscores, if_neg ha, List.cons.injEq, true_and]
      exact ih false htail0 (fun h => by cases h)
    | false =>
      by_cases ha : a = '_'
      · have hstep : squashUnderscores false (a :: as) = '_' :: squashUnderscores true as := by
          simp only [squashUnderscores, if_pos ha]
        rw [hstep, ha, List.cons.injEq]
        refine ⟨rfl, ih true htail0 fun _ hh2 => ?_⟩
        exact absurd (And.intro ha rfl) ((List.chain'_cons'.mp hnd).1 '_' hh2)
      · simp only [squashUnderscores, if_neg ha, List.cons.injEq, true_and]
        exact ih false htail0 (fun h => by cases h)

theorem squashWhitespace_id :
    ∀ (l : List Char) (b : Bool), (∀ c ∈ l, c.isWhitespace = false) →
      squashWhitespace b l = l := by
  intro l
  induction l with
  | nil => intro b _; cases b <;> rfl
  | cons a as ih =>
    intro b hws
    have ha : ¬a.isWhitespace = true := by
      simp [hws a (List.mem_cons_self _ _)]
    have htail := ih false fun c hc => hws c (List.mem_cons_of_mem _ hc)
    cases b with
    | true =>
      simp only [squashWhitespace, if_neg ha, List.cons.injEq, true_and]
      exact htail
    | false =>
      simp only [squashWhitespace, if_neg ha, List.cons.injEq, true_and]
      exact htail

theorem head?_dropWhile_not (p : Char → Bool) :
    ∀ (l : List Char) (c : Char), (l.dropWhile p).head? = some c → p c = false := by
  intro l
  induction l with
  | nil => intro c h; simp at h
  | cons a as ih =>
    intro c h
    rw [List.dropWhile_cons] at h
    by_cases ha : p a = true
    · rw [if_pos ha] at h
      exact ih c h
    · rw [if_neg ha] at h
      simp only [List.head?_cons, Option.some.injEq] at h
      rw [← h]
      exact Bool.eq_false_iff.mpr ha

theorem dropWhile_eq_self_of_head (p : Char → Bool) (l : List Char)
    (h : ∀ c, l.head? = some c → p c = false) : l.dropWhile p = l := by
  cases l with
  | nil => rfl
  | cons a as =>
    rw [List.dropWhile_cons, if_neg (by simp [h a rfl])]

theorem strip_mem {l : List Char} {c : Char} (h : c ∈ stripUnderscores l) : c ∈ l := by
  unfold stripUnderscores at h
  rw [List.mem_reverse] at h
  have h1 := (List.dropWhile_sublist _).mem h
  rw [List.mem_reverse] at h1
  exact (List.dropWhile_sublist _).mem h1

theorem noDouble_reverse {l : List Char} (h : noDoubleUnderscore l) :
    noDoubleUnderscore l.reverse := by
  unfold noDoubleUnderscore at *
  rw [List.chain'_reverse]
  exact h.imp fun a b hab hcon => hab ⟨hcon.2, hcon.1⟩

theorem strip_chain {l : List Char} (h : noDoubleUnderscore l) :
    noDoubleUnderscore (stripUnderscores l) := by
  unfold stripUnderscores
  exact noDouble_reverse
    (((noDouble_reverse (h.suffix (List.dropWhile_suffix _))).suffix
      (List.dropWhile_suffix _)))

theorem strip_head (l : List Char) : (stripUnderscores l).head? ≠ some '_' := by
  intro hh
  unfold stripUnderscores at hh
  set d1 := l.dropWhile (fun c => c = '_') with hd1
  have hpre : ((d1.reverse.dropWhile (fun c => c = '_')).reverse) <+: d1 := by
    have hsuf : d1.reverse.dropWhile (fun c => c = '_') <:+ d1.reverse :=
      List.dropWhile_suffix _
    have := List.reverse_prefix.mpr hsuf
    rwa [List.reverse_reverse] at this
  obtain ⟨t, ht⟩ := hpre
  rcases he : (d1.reverse.dropWhile (fun c => c = '_')).reverse with _ | ⟨c, cs⟩
  · rw [he] at hh; cases hh
  · rw [he] at hh ht
    simp only [List.head?_cons, Option.some.injEq] at hh
    have hd : d1.head? = some c := by rw [← ht]; rfl
    have := head?_dropWhile_not (fun c => c = '_') l c (hd1 ▸ hd)
    simp [hh] at this

theorem strip_last (l : List Char) : (stripUnderscores l).getLast? ≠ some '_' := by
  intro hh
  unfold stripUnderscores at hh
  rw [List.getLast?_reverse] at hh
  have := head?_dropWhile_not (fun c => c = '_') _ _ hh
  simp at this

theorem strip_id {l : List Char} (hh : l.head? ≠ some '_') (hl : l.getLast? ≠ some '_') :
    stripUnderscores l = l := by
  unfold stripUnderscores
  rw [dropWhile_eq_self_of_head _ l (fun c hc => by
    simp only [decide_eq_false_iff_not]
    intro he
    exact hh (he ▸ hc))]
  rw [dropWhile_eq_self_of_head _ l.reverse (fun c hc => by
    simp only [decide_eq_false_iff_not]
    intro he
    rw [List.head?_reverse] at hc
    exact hl (he ▸ hc))]
  exact List.reverse_reverse l

theorem pipelineGood (l : List Char) :
    keptList (normalizePipeline l) ∧ noDoubleUnderscore (normalizePipeline l) ∧
      (normalizePipeline l).head? ≠ some '_' ∧
      (normalizePipeline l).getLast? ≠ some '_' := by
  unfold normalizePipeline
  set l1 := if l.contains '.' && l.count '.' > 1 then lastDotSegment l else l with hl1
  set l4 := (squashWhitespace false (l1.map Char.toLower)).filter isKeptChar with hl4
  set l5 := squashUnderscores false l4 with hl5
  have hk4 : keptList l4 := fun c hc => List.of_mem_filter hc
  have hk5 : keptList l5 := by
    intro c hc
    rcases mem_squashUnderscores l4 false c hc with h | h
    · exact hk4 c h
    · rw [h]; rfl
  refine ⟨fun c hc => hk5 c (strip_mem hc), strip_chain (chain_squashUnderscores l4 false).1,
    strip_head l5, strip_last l5⟩

theorem pipeline_id {l : List Char} (hk : keptList l) (hnd : noDoubleUnderscore l)
    (hh : l.head? ≠ some '_') (hl : l.getLast? ≠ some '_') : normalizePipeline l = l := by
  unfold normalizePipeline
  have hdot : l.contains '.' = false := by
    have : '.' ∉ l := fun hm => absurd (hk '.' hm) (by decide)
    simpa using this
  have hcond : (l.contains '.' && decide (l.count '.' > 1)) = false := by
    rw [hdot, Bool.false_and]
  show stripUnderscores (squashUnderscores false
    (List.filter isKeptChar (squashWhitespace false
      (List.map Char.toLower (if l.contains '.' && decide (l.count '.' > 1)
        then lastDotSegment l else l))))) = l
  rw [if_neg (by rw [hcond]; exact Bool.false_ne_true)]
  have hmap : List.map Char.toLower l = l := by
    conv_lhs => rw [List.map_congr_left (fun c hc => toLower_of_kept (hk c hc))]
    exact List.map_id l
  rw [hmap]
  rw [squashWhitespace_id l false (fun c hc => not_whitespace_of_kept (hk c hc))]
  rw [List.filter_eq_self.mpr hk]
  rw [squashUnderscores_id l false hnd (fun h => by cases h)]
  exact strip_id hh hl

/-- Executable mirror of `noDoubleUnderscore`, for deciding concrete
instances. -/
def noDoubleB : List Char → Bool
  | a :: b :: rest => (!(a = '_' && b = '_')) && noDoubleB (b :: rest)
  | _ => true

theorem noDouble_iff : ∀ l : List Char, noDoubleUnderscore l ↔ noDoubleB l = true := by
  intro l
  induction l with
  | nil => simp [noDoubleUnderscore, noDoubleB]
  | cons a l ih =>
    cases l with
    | nil => simp [noDoubleUnderscore, noDoubleB]
    | cons b r =>
      unfold noDoubleUnderscore at ih ⊢
      rw [List.chain'_cons, ih]
      show (¬(a = '_' ∧ b = '_') ∧ noDoubleB (b :: r) = true) ↔ noDoubleB (a :: b :: r) = true
      simp only [noDoubleB, Bool.and_eq_true, Bool.not_eq_true', Bool.and_eq_false_iff,
        decide_eq_true_eq, decide_eq_false_iff_not, and_congr_left_iff]
      intro _
      constructor
      · intro h
        by_cases ha : a = '_'
        · exact Or.inr (fun hb => h ⟨ha, hb⟩)
        · exact Or.inl ha
      · rintro (h | h) ⟨h1, h2⟩
        · exact h h1
        · exact h h2

/-- The bundle of shape facts true of every `normalize_to_snake_case`
output, from which validity and idempotence follow. -/
def goodIdentChars (t : String) : Prop :=
  t.toList ≠ [] ∧ keptList t.toList ∧ noDoubleUnderscore t.toList ∧
    t.toList.head? ≠ some '_' ∧ t.toList.getLast? ≠ some '_' ∧
    (∀ c, t.toList.head? = some c → c.isDigit = false)

theorem good_unnamed : goodIdentChars "unnamed_screen" := by
  refine ⟨by decide, ?_, ?_, by decide, by decide, fun _ hx => by cases hx; rfl⟩
  · show ∀ c ∈ "unnamed_screen".toList, isKeptChar c = true
    decide
  · exact (noDouble_iff _).mpr (by decide)

theorem normalize_good (s : String) : goodIdentChars (normalize_to_snake_case s) := by
  rw [normalize_to_snake_case]
  by_cases hs : s = ""
  · rw [if_pos hs]; exact good_unnamed
  · rw [if_neg hs]
    rcases hp : normalizePipeline s.toList with _ | ⟨c, cs⟩
    · exact good_unnamed
    · have hg := pipelineGood s.toList
      rw [hp] at hg
      obtain ⟨hk, hnd, hh, hl⟩ := hg
      by_cases hd : c.isDigit
      · show goodIdentChars (if c.isDigit = true then "screen_" ++ String.mk (c :: cs)
          else String.mk (c :: cs))
        rw [if_pos hd]
        have hdata : ("screen_" ++ String.mk (c :: cs)).toList = "screen_".toList ++ (c :: cs) :=
          String.data_append _ _
        have hcne : c ≠ '_' := by
          rintro rfl
          exact absurd hd (by decide)
        refine ⟨by rw [hdata]; simp, ?_, ?_, ?_, ?_, ?_⟩
        · intro x hx
          rw [hdata] at hx
          rcases List.mem_append.mp hx with h | h
          · have hall : ∀ y ∈ "screen_".toList, isKeptChar y = true := by decide
            exact hall x h
          · exact hk x h
        · rw [hdata]
          unfold noDoubleUnderscore
          rw [List.chain'_append]
          refine ⟨(noDouble_iff _).mpr (by decide), hnd, ?_⟩
          intro x hx y hy hcon
          simp only [List.head?_cons, Option.mem_def, Option.some.injEq] at hy
          exact hcne (hy ▸ hcon.2)
        · rw [hdata]
          intro hcon
          cases hcon
        · rw [hdata, List.getLast?_append]
          obtain ⟨d, hdl⟩ := Option.isSome_iff_exists.mp
            (List.getLast?_isSome.mpr (by simp : (c :: cs) ≠ []))
          rw [hdl]
          simp only [Option.or_some, ne_eq, Option.some.injEq]
          intro he
          exact hl (by rw [hdl, he])
        · rw [hdata]
          intro x hx
          have hx' : 's' = x := by simpa using hx
          rw [← hx']
          rfl
      · show goodIdentChars (if c.isDigit = true then "screen_" ++ String.mk (c :: cs)
          else String.mk (c :: cs))
        rw [if_neg hd]
        have hdata : (String.mk (c :: cs)).toList = c :: cs := rfl
        refine ⟨by rw [hdata]; simp, by rw [hdata]; exact hk,
          by rw [hdata]; exact hnd, by rw [hdata]; exact hh, by rw [hdata]; exact hl, ?_⟩
        intro x hx
        rw [hdata] at hx
        simp only [List.head?_cons, Option.some.injEq] at hx
        rw [← hx]
        exact Bool.eq_false_iff.mpr hd

theorem normalize_fixpoint (t : String) (hg : goodIdentChars t) :
    normalize_to_snake_case t = t := by
  obtain ⟨hne, hk, hnd, hh, hl, hdg⟩ := hg
  have ht : t ≠ "" := by
    intro he
    rw [he] at hne
    exact hne rfl
  rw [normalize_to_snake_case, if_neg ht]
  have hp : normalizePipeline t.toList = t.toList := pipeline_id hk hnd hh hl
  rw [hp]
  rcases hc : t.toList with _ | ⟨c, cs⟩
  · exact absurd hc hne
  · show (if c.isDigit = true then "screen_" ++ String.mk (c :: cs) else String.mk (c :: cs)) = t
    rw [if_neg (by simp [hdg c (by rw [hc]; rfl)])]
    rw [← hc]
    rfl

/-! ### Claims C3, C8, C10 -/

/-- A valid source identifier as the spec defines it: non-empty, characters
in `[a-z0-9_]` only, not starting with a digit. -/
def isValidSourceIdent (t : String) : Prop :=
  t ≠ "" ∧ (∀ c ∈ t.toList, isKeptChar c = true) ∧
    (∀ c, t.toList.head? = some c → c.isDigit = false)

theorem valid_of_good {t : String} (hg : goodIdentChars t) : isValidSourceIdent t := by
  obtain ⟨hne, hk, _, _, _, hdg⟩ := hg
  refine ⟨?_, hk, hdg⟩
  intro he
  rw [he] at hne
  exact hne rfl

/-- C3: every candidate string normalizes to a valid source identifier, and
hence so does every screen name produced by `generate_screen_name`; the
empty or fully-stripped candidate yields `"unnamed_screen"`, and a
digit-leading normalization result is prefixed with `"screen_"`. -/
theorem claim_C3_screen_name_identifier :
    (∀ s, isValidSourceIdent (normalize_to_snake_case s)) ∧
    (∀ (elements : List ElementData) (activity : String),
      isValidSourceIdent (generate_screen_name elements activity)) ∧
    (∀ s, normalizePipeline s.toList = [] → normalize_to_snake_case s = "unnamed_screen") ∧
    (∀ s c cs, normalizePipeline s.toList = c :: cs → c.isDigit = true →
      normalize_to_snake_case s = "screen_" ++ String.mk (c :: cs)) := by
  have hvalid : ∀ s, isValidSourceIdent (normalize_to_snake_case s) :=
    fun s => valid_of_good (normalize_good s)
  refine ⟨hvalid, ?_, ?_, ?_⟩
  · intro elements activity
    rw [generate_screen_name]
    exact hvalid _
  · intro s hp
    by_cases hs : s = ""
    · rw [hs]
      rfl
    · rw [normalize_to_snake_case, if_neg hs, hp]
  · intro s c cs hp hd
    have hs : s ≠ "" := by
      intro he
      rw [he] at hp
      rw [show normalizePipeline ("" : String).toList = [] from rfl] at hp
      exact List.noConfusion hp
    rw [normalize_to_snake_case, if_neg hs, hp]
    show (if c.isDigit = true then "screen_" ++ String.mk (c :: cs) else String.mk (c :: cs)) =
      "screen_" ++ String.mk (c :: cs)
    rw [if_pos hd]

/-- Concrete C3 witness: a valid identifier from an ordinary title, the
`"unnamed_screen"` fallback on a fully-stripped candidate, and the
`"screen_"` prefix on a digit-leading candidate. -/
theorem claim_C3_screen_name_identifier_witness :
    isValidSourceIdent (normalize_to_snake_case "Login Page") ∧
      normalize_to_snake_case "!!!" = "unnamed_screen" ∧
      normalize_to_snake_case " 123 abc " = "screen_123_abc" := by
  refine ⟨claim_C3_screen_name_identifier.1 _,
    claim_C3_screen_name_identifier.2.2.1 "!!!" (by decide), ?_⟩
  have h := claim_C3_screen_name_identifier.2.2.2 " 123 abc " '1' "23_abc".toList
    (by decide) (by decide)
  exact h.trans (by decide)

/-- C8: the normalization function whose source text the helper-block
emitter outputs computes exactly the same function as the interactive-time
`normalize_to_snake_case`: the two are behaviorally equivalent on every
input. -/
theorem claim_C8_helper_normalize_equiv :
    ∀ s, helperNormalizeToSnakeCase s = normalize_to_snake_case s := fun _ => rfl

/-- C10: `normalize_to_snake_case` is idempotent, and in particular on
`"Home Screen"`. -/
theorem claim_C10_normalize_idempotent :
    (∀ s, normalize_to_snake_case (normalize_to_snake_case s) = normalize_to_snake_case s) ∧
      normalize_to_snake_case "Home Screen" =
        normalize_to_snake_case (normalize_to_snake_case "Home Screen") := by
  constructor
  · intro s
    exact normalize_fixpoint _ (normalize_good s)
  · decide

/-! ### Recorder lemmas -/

theorem get_user_choice_suffix {lo hi : Int} :
    ∀ {inputs : List String} {c : Int} {r : List String},
      _get_user_choice lo hi inputs = some (c, r) → r <:+ inputs := by
  intro inputs
  induction inputs with
  | nil => intro c r h; simp [_get_user_choice] at h
  | cons s rest ih =>
    intro c r h
    simp only [_get_user_choice] at h
    rcases hp : pyInt? (pyStrip s) with _ | n <;> simp only [hp] at h
    · exact (ih h).trans (List.suffix_cons _ _)
    · split at h
      · cases h
        exact List.suffix_cons _ _
      · exact (ih h).trans (List.suffix_cons _ _)

theorem selectFromList_suffix {elements : List ElementData} :
    ∀ {inputs : List String} {e : ElementData} {r : List String},
      selectFromList elements inputs = some (e, r) → r <:+ inputs := by
  intro inputs
  induction inputs with
  | nil => intro e r h; simp [selectFromList] at h
  | cons s rest ih =>
    intro e r h
    simp only [selectFromList] at h
    rcases hp : pyInt? (pyStrip s) with _ | n <;> simp only [hp] at h
    · exact (ih h).trans (List.suffix_cons _ _)
    · split at h
      · cases h
        exact List.suffix_cons _ _
      · exact (ih h).trans (List.suffix_cons _ _)

theorem get_element_from_list_suffix {elements : List ElementData}
    {inputs : List String} {x : Option ElementData} {r : List String}
    (h : _get_element_from_list elements inputs = some (x, r)) : r <:+ inputs := by
  unfold _get_element_from_list at h
  by_cases he : elements.isEmpty
  · rw [if_pos he] at h
    cases h
    exact List.suffix_refl _
  · rw [if_neg he] at h
    rcases hs : selectFromList elements inputs with _ | ⟨e, rest⟩ <;> rw [hs] at h
    · exact absurd h (by simp)
    · cases h
      exact selectFromList_suffix hs

/-- Choosing "finish" (menu item 5) returns the accumulated action list. -/
theorem recordLoop_finish {E : List ElementData} {acc : List Action} {inputs r : List String}
    (h : _get_user_choice 1 5 inputs = some (5, r)) :
    recordLoop E acc inputs = some acc := by
  rw [recordLoop.eq_def]
  split
  · next heq => rw [h] at heq; exact absurd heq (by simp)
  · next choice r1 heq =>
    rw [h] at heq
    injection heq with heq
    injection heq with hc hr
    subst hc
    simp

/-- The `set_text` validation gate: a non-editable target element is
rejected, nothing is appended, and the loop continues (state `Browsing`). -/
theorem recordLoop_setText_rejected {E : List ElementData} {acc : List Action}
    {inputs r1 r2 : List String} {el : ElementData}
    (h1 : _get_user_choice 1 5 inputs = some (2, r1))
    (h2 : _get_element_from_list E r1 = some (some el, r2))
    (hed : el.editable = false) :
    recordLoop E acc inputs = recordLoop E acc r2 := by
  rw [recordLoop.eq_def]
  split
  · next heq => rw [h1] at heq; exact absurd heq (by simp)
  · next choice rr heq =>
    rw [h1] at heq
    injection heq with heq
    injection heq with hc hr
    subst hc hr
    simp only [if_neg (by decide : ¬(2 : Int) = 5)]
    split
    · next heq2 => rw [h2] at heq2; exact absurd heq2 (by simp)
    · next r2' heq2 => rw [h2] at heq2; exact absurd heq2 (by simp)
    · next el' r2' heq2 =>
      rw [h2] at heq2
      injection heq2 with heq2
      injection heq2 with he hrr
      have he' : el = el' := by injection he
      subst he' hrr
      simp [hed]

/-- The `scroll_to_text` validation gate: a non-scrollable container is
rejected, nothing is appended, and the loop continues. -/
theorem recordLoop_stt_not_scrollable {E : List ElementData} {acc : List Action}
    {inputs r1 r2 : List String} {el : ElementData}
    (h1 : _get_user_choice 1 5 inputs = some (4, r1))
    (h2 : _get_element_from_list E r1 = some (some el, r2))
    (hsc : el.scrollable = false) :
    recordLoop E acc inputs = recordLoop E acc r2 := by
  rw [recordLoop.eq_def]
  split
  · next heq => rw [h1] at heq; exact absurd heq (by simp)
  · next choice rr heq =>
    rw [h1] at heq
    injection heq with heq
    injection heq with hc hr
    subst hc hr
    simp only [if_neg (by decide : ¬(4 : Int) = 5)]
    split
    · next heq2 => rw [h2] at heq2; exact absurd heq2 (by simp)
    · next r2' heq2 => rw [h2] at heq2; exact absurd heq2 (by simp)
    · next el' r2' heq2 =>
      rw [h2] at heq2
      injection heq2 with heq2
      injection heq2 with he hrr
      have he' : el = el' := by injection he
      subst he' hrr
      simp [hsc]

/-- The `scroll_to_text` empty-target gate: an empty (stripped) target text
is rejected, nothing is appended, and the loop continues. -/
theorem recordLoop_stt_empty_target {E : List ElementData} {acc : List Action}
    {inputs r1 r3 : List String} {el : ElementData} {t : String}
    (h1 : _get_user_choice 1 5 inputs = some (4, r1))
    (h2 : _get_element_from_list E r1 = some (some el, t :: r3))
    (hsc : el.scrollable = true)
    (ht : pyStrip t = "") :
    recordLoop E acc inputs = recordLoop E acc r3 := by
  rw [recordLoop.eq_def]
  split
  · next heq => rw [h1] at heq; exact absurd heq (by simp)
  · next choice rr heq =>
    rw [h1] at heq
    injection heq with heq
    injection heq with hc hr
    subst hc hr
    simp only [if_neg (by decide : ¬(4 : Int) = 5)]
    split
    · next heq2 => rw [h2] at heq2; exact absurd heq2 (by simp)
    · next r2' heq2 => rw [h2] at heq2; exact absurd heq2 (by simp)
    · next el' r2' heq2 =>
      rw [h2] at heq2
      injection heq2 with heq2
      injection heq2 with he hrr
      have he' : el = el' := by injection he
      subst he'
      subst hrr
      simp [hsc, ht]

/-- An accepted `scroll_to_text` recording: exactly one action is appended,
whose description embeds the chosen direction. -/
theorem recordLoop_stt_accepted {E : List ElementData} {acc : List Action}
    {inputs r1 r4 : List String} {el : ElementData} {t dRaw : String}
    (h1 : _get_user_choice 1 5 inputs = some (4, r1))
    (h2 : _get_element_from_list E r1 = some (some el, t :: dRaw :: r4))
    (hsc : el.scrollable = true)
    (ht : pyStrip t ≠ "") :
    recordLoop E acc inputs = recordLoop E
      (acc ++ [Action.scroll_to_text el.selector (pyStrip t) (scrollToTextDirection dRaw)
        ("Scroll " ++ _get_element_description (some el) ++ " " ++ scrollToTextDirection dRaw ++
         " until element with text '" ++ pyStrip t ++ "' is visible")]) r4 := by
  rw [recordLoop.eq_def]
  split
  · next heq => rw [h1] at heq; exact absurd heq (by simp)
  · next choice rr heq =>
    rw [h1] at heq
    injection heq with heq
    injection heq with hc hr
    subst hc hr
    simp only [if_neg (by decide : ¬(4 : Int) = 5)]
    split
    · next heq2 => rw [h2] at heq2; exact absurd heq2 (by simp)
    · next r2' heq2 => rw [h2] at heq2; exact absurd heq2 (by simp)
    · next el' r2' heq2 =>
      rw [h2] at heq2
      injection heq2 with heq2
      injection heq2 with he hrr
      have he' : el = el' := by injection he
      subst he'
      subst hrr
      simp [hsc, ht, scrollToTextDirection]

/-- Whenever the recording loop returns normally, a finish choice (5) was
read from some suffix of the input stream, and the accumulated list at loop
entry is a prefix of the returned list. -/
theorem recordLoop_done :
    ∀ (n : Nat) (inputs : List String), inputs.length ≤ n →
      ∀ (E : List ElementData) (acc res : List Action),
        recordLoop E acc inputs = some res →
        (∃ s r, s <:+ inputs ∧ _get_user_choice 1 5 s = some (5, r)) ∧ acc <+: res := by
  intro n
  induction n with
  | zero =>
    intro inputs hlen E acc res h
    have hnil : inputs = [] := List.length_eq_zero.mp (Nat.le_zero.mp hlen)
    subst hnil
    rw [recordLoop.eq_def] at h
    split at h
    · exact absurd h (by simp)
    · next choice r1 heq => exact absurd heq (by simp [_get_user_choice])
  | succ n ih =>
    intro inputs hlen E acc res h
    have hrec : ∀ (r' : List String) (acc' : List Action), r' <:+ inputs →
        r'.length < inputs.length → acc <+: acc' → recordLoop E acc' r' = some res →
        (∃ s r, s <:+ inputs ∧ _get_user_choice 1 5 s = some (5, r)) ∧ acc <+: res := by
      intro r' acc' hsuf hltn hpre h'
      obtain ⟨⟨s, r, hs, hg⟩, hp⟩ := ih r' (by omega) E acc' res h'
      exact ⟨⟨s, r, hs.trans hsuf, hg⟩, hpre.trans hp⟩
    rw [recordLoop.eq_def] at h
    split at h
    · exact absurd h (by simp)
    · next choice r1 heq =>
      have hg1 := get_user_choice_length heq
      have hs1 := get_user_choice_suffix heq
      split at h
      · next hc5 =>
        cases h
        exact ⟨⟨inputs, r1, List.suffix_refl _, hc5 ▸ heq⟩, List.prefix_refl _⟩
      · next hc5 =>
        split at h
        · exact absurd h (by simp)
        · next r2 heq2 =>
          have hs2 := (get_element_from_list_suffix heq2).trans hs1
          have hl2 := Nat.lt_of_le_of_lt (get_element_from_list_length heq2) hg1
          exact hrec r2 acc hs2 hl2 (List.prefix_refl _) h
        · next el r2 heq2 =>
          have hs2 := (get_element_from_list_suffix heq2).trans hs1
          have hl2 := Nat.lt_of_le_of_lt (get_element_from_list_length heq2) hg1
          split at h
          · exact hrec r2 _ hs2 hl2 (List.prefix_append _ _) h
          · split at h
            · split at h
              · exact hrec r2 acc hs2 hl2 (List.prefix_refl _) h
              · split at h
                · exact absurd h (by simp)
                · rename_i t r3
                  refine hrec r3 _ ((List.suffix_cons t r3).trans hs2) ?_
                    (List.prefix_append _ _) h
                  simp only [List.length_cons] at hl2
                  omega
            · split at h
              · split at h
                · exact absurd h (by simp)
                · rename_i dRaw r3
                  split at h
                  · refine hrec r3 _ ((List.suffix_cons dRaw r3).trans hs2) ?_
                      (List.prefix_append _ _) h
                    simp only [List.length_cons] at hl2
                    omega
                  · refine hrec r3 _ ((List.suffix_cons dRaw r3).trans hs2) ?_
                      (List.prefix_append _ _) h
                    simp only [List.length_cons] at hl2
                    omega
              · split at h
                · exact hrec r2 acc hs2 hl2 (List.prefix_refl _) h
                · split at h
                  · exact absurd h (by simp)
                  · rename_i t r3
                    split at h
                    · refine hrec r3 acc ((List.suffix_cons t r3).trans hs2) ?_
                        (List.prefix_refl _) h
                      simp only [List.length_cons] at hl2
                      omega
                    · split at h
                      · exact absurd h (by simp)
                      · rename_i dRaw r4
                        refine hrec r4 _ (((List.suffix_cons dRaw r4).trans
                          (List.suffix_cons t (dRaw :: r4))).trans hs2) ?_
                          (List.prefix_append _ _) h
                        simp only [List.length_cons] at hl2
                        omega

/-- A scrollable list container, as a raw info map. -/
def infoList : Info :=
  { resourceId := "app:id/list", text := "", className := "android.widget.ListView",
    contentDescription := "", bounds := some ⟨0, 0, 100, 400⟩, clickable := false,
    longClickable := false, scrollable := true, checkable := false, checked := false,
    editable := false }

/-! ### Claim C4 -/

/-- C4: the recorder's validation gates.  Recording `set_text` against a
non-editable element appends nothing; recording `scroll_to_text` against a
non-scrollable container, or with empty (stripped) target text, appends
nothing; in each case the action list is unchanged and the loop continues
from the remaining inputs (state `Browsing`). -/
theorem claim_C4_validation_gates :
    (∀ (E : List ElementData) (acc : List Action) (inputs r1 r2 : List String)
      (el : ElementData),
      _get_user_choice 1 5 inputs = some (2, r1) →
      _get_element_from_list E r1 = some (some el, r2) →
      el.editable = false →
      recordLoop E acc inputs = recordLoop E acc r2) ∧
    (∀ (E : List ElementData) (acc : List Action) (inputs r1 r2 : List String)
      (el : ElementData),
      _get_user_choice 1 5 inputs = some (4, r1) →
      _get_element_from_list E r1 = some (some el, r2) →
      el.scrollable = false →
      recordLoop E acc inputs = recordLoop E acc r2) ∧
    (∀ (E : List ElementData) (acc : List Action) (inputs r1 r3 : List String)
      (el : ElementData) (t : String),
      _get_user_choice 1 5 inputs = some (4, r1) →
      _get_element_from_list E r1 = some (some el, t :: r3) →
      el.scrollable = true →
      pyStrip t = "" →
      recordLoop E acc inputs = recordLoop E acc r3) :=
  ⟨fun _ _ _ _ _ _ h1 h2 hed => recordLoop_setText_rejected h1 h2 hed,
   fun _ _ _ _ _ _ h1 h2 hsc => recordLoop_stt_not_scrollable h1 h2 hsc,
   fun _ _ _ _ _ _ _ h1 h2 hsc ht => recordLoop_stt_empty_target h1 h2 hsc ht⟩

/-- Concrete C4 witness: the three rejected recordings at concrete inputs,
each leaving the (empty) action list unchanged. -/
theorem claim_C4_validation_gates_witness :
    (recordLoop [buildElementData infoButton] [] ["2", "1"] =
      recordLoop [buildElementData infoButton] [] []) ∧
    (recordLoop [buildElementData infoButton] [] ["4", "1"] =
      recordLoop [buildElementData infoButton] [] []) ∧
    (recordLoop [buildElementData infoList] [] ["4", "1", "   "] =
      recordLoop [buildElementData infoList] [] []) :=
  ⟨claim_C4_validation_gates.1 [buildElementData infoButton] [] ["2", "1"] ["1"] []
      (buildElementData infoButton) (by decide) (by decide) (by decide),
   claim_C4_validation_gates.2.1 [buildElementData infoButton] [] ["4", "1"] ["1"] []
      (buildElementData infoButton) (by decide) (by decide) (by decide),
   claim_C4_validation_gates.2.2 [buildElementData infoList] [] ["4", "1", "   "] ["1", "   "]
      [] (buildElementData infoList) "   " (by decide) (by decide) (by decide) (by decide)⟩

/-! ### Claim C9 -/

/-- C9 (amended): for a non-empty catalog, the recorder's terminal state is
reached only when the operator explicitly chooses finish (a menu choice 5
read from some suffix of the input stream), and the returned list extends
the accumulated ordered action list; for the empty catalog the recorder
returns the empty action list immediately, without consulting the operator
(the uncorrected claim fails there). -/
theorem claim_C9_done_only_on_finish :
    (∀ (E : List ElementData) (acc res : List Action) (inputs : List String),
      recordLoop E acc inputs = some res →
      (∃ s r, s <:+ inputs ∧ _get_user_choice 1 5 s = some (5, r)) ∧ acc <+: res) ∧
    (∀ inputs, build_actions_for_screen [] inputs = some []) ∧
    (∀ (E : List ElementData) (inputs : List String), E ≠ [] →
      build_actions_for_screen E inputs = recordLoop E [] inputs) := by
  refine ⟨fun E acc res inputs h =>
      recordLoop_done inputs.length inputs (Nat.le_refl _) E acc res h, fun _ => rfl, ?_⟩
  intro E inputs hne
  rw [build_actions_for_screen, if_neg (by simp [List.isEmpty_iff, hne])]

/-- C9 counterexample: with the empty catalog the recorder reaches its
terminal state and returns at once, although the (empty) input stream never
offered a finish choice. -/
theorem claim_C9_done_only_on_finish_counterexample :
    build_actions_for_screen [] [] = some [] ∧ _get_user_choice 1 5 [] = none :=
  ⟨rfl, rfl⟩

/-- Concrete C9 witness: a session over a one-element catalog whose single
input is the finish choice. -/
theorem claim_C9_done_only_on_finish_witness :
    (∃ s r, s <:+ ["5"] ∧ _get_user_choice 1 5 s = some (5, r)) ∧
      ([] : List Action) <+: [] :=
  claim_C9_done_only_on_finish.1 [buildElementData infoButton] [] [] ["5"]
    (recordLoop_finish (show _get_user_choice 1 5 ["5"] = some (5, []) from by decide))

/-! ### Claim C6 -/

/-- C6 counterexample: two recorded `scroll_to_text` actions differing only
in their direction emit byte-identical code, and the emitted statement
(shown literally) passes no direction to `scroll.to`. -/
theorem claim_C6_counterexample_direction_dropped :
    generate_python_function "screen_a"
      [Action.scroll_to_text { resourceId := some "app:id/list" } "OK" "backward" "d"] =
    generate_python_function "screen_a"
      [Action.scroll_to_text { resourceId := some "app:id/list" } "OK" "forward" "d"] ∧
    generate_python_function "screen_a"
      [Action.scroll_to_text { resourceId := some "app:id/list" } "OK" "backward" "d"] =
      "def screen_a(d):\n    \"\"\"Automates actions on the screen_a screen.\"\"\"\n    print(f'Executing actions for screen_a screen...')\n    d(resourceId='app:id/list').scroll.to(text='OK')\n    time.sleep(0.5) # Stability delay" := by
  constructor
  · rfl
  · rfl

/-- C6 (amended): the recorded direction appears in the human-readable
description the recorder builds, but `generate_python_function` does not
pass it to the transport's scroll-to primitive: the emitted statement is
`d(selector).scroll.to(text=target)`, independent of the recorded
direction. -/
theorem claim_C6_direction_in_description_not_emission :
    (∀ (name : String) (sel : Selector) (target d1 d2 desc1 desc2 : String),
      generate_python_function name [Action.scroll_to_text sel target d1 desc1] =
      generate_python_function name [Action.scroll_to_text sel target d2 desc2]) ∧
    (∀ (sel : Selector) (target d desc : String),
      emitActionLines (Action.scroll_to_text sel target d desc) =
        ["    d(" ++ build_selector_string sel ++ ").scroll.to(text=" ++ pyRepr target ++ ")",
         sleepLine]) ∧
    (∀ (E : List ElementData) (acc : List Action) (inputs r1 r4 : List String)
      (el : ElementData) (t dRaw : String),
      _get_user_choice 1 5 inputs = some (4, r1) →
      _get_element_from_list E r1 = some (some el, t :: dRaw :: r4) →
      el.scrollable = true →
      pyStrip t ≠ "" →
      recordLoop E acc inputs = recordLoop E
        (acc ++ [Action.scroll_to_text el.selector (pyStrip t) (scrollToTextDirection dRaw)
          ("Scroll " ++ _get_element_description (some el) ++ " " ++
           scrollToTextDirection dRaw ++ " until element with text '" ++ pyStrip t ++
           "' is visible")]) r4) :=
  ⟨fun _ _ _ _ _ _ _ => rfl, fun _ _ _ _ => rfl,
   fun _ _ _ _ _ _ _ _ h1 h2 hsc ht => recordLoop_stt_accepted h1 h2 hsc ht⟩

/-- Concrete C6 witness: an accepted scroll-to-text recording whose stored
description embeds the chosen direction. -/
theorem claim_C6_direction_witness :
    recordLoop [buildElementData infoList] [] ["4", "1", "OK", "backward"] =
      recordLoop [buildElementData infoList]
        ([] ++ [Action.scroll_to_text (buildElementData infoList).selector (pyStrip "OK")
          (scrollToTextDirection "backward")
          ("Scroll " ++ _get_element_description (some (buildElementData infoList)) ++ " " ++
           scrollToTextDirection "backward" ++ " until element with text '" ++ pyStrip "OK" ++
           "' is visible")]) [] :=
  claim_C6_direction_in_description_not_emission.2.2 [buildElementData infoList] []
    ["4", "1", "OK", "backward"] ["1", "OK", "backward"] [] (buildElementData infoList)
    "OK" "backward" (by decide) (by decide) (by decide) (by decide)

/-! ### Claim C7: `repr` literals round-trip through the literal parser -/

/-- A hex digit printed by `hexDigitChar` parses back to its value. -/
theorem hexVal_hexDigitChar {d : Nat} (hd : d < 16) : hexVal (hexDigitChar d) = some d := by
  interval_cases d <;> decide

/-- Decoding a character's own scalar value recovers the character. -/
theorem charFromCode_toNat (c : Char) : charFromCode c.toNat = some c := by
  have hv : c.toNat.isValidChar := c.valid
  rw [charFromCode, dif_pos hv]
  have hofn : Char.ofNat c.toNat = Char.ofNatAux c.toNat hv := by
    unfold Char.ofNat
    exact dif_pos hv
  rw [← hofn, Char.ofNat_toNat]

/-- A character that is neither a backslash nor the quote is consumed
verbatim by the literal parser. -/
theorem parseBody_lit (m : Nat) (q c : Char) (hc1 : ¬c = '\\') (hc2 : ¬c = q)
    (rest : List Char) :
    parseLiteralBody (m + 1) q (c :: rest) =
      (parseLiteralBody m q rest).map (fun l => c :: l) := by
  change (if c = '\\' then _ else if c = q then _
    else (parseLiteralBody m q rest).map fun l => c :: l) = _
  rw [if_neg hc1, if_neg hc2]

/-- A two-digit `\xhh` escape decodes through `hexVal` and `charFromCode`. -/
theorem parseBody_x (m : Nat) (q h1 h2 : Char) (v1 v2 : Nat) (c' : Char) (rest : List Char)
    (hh1 : hexVal h1 = some v1) (hh2 : hexVal h2 = some v2)
    (hc : charFromCode (16 * v1 + v2) = some c') :
    parseLiteralBody (m + 1) q ('\\' :: 'x' :: h1 :: h2 :: rest) =
      (parseLiteralBody m q rest).map (fun l => c' :: l) := by
  change (match hexVal h1, hexVal h2 with
    | some v1, some v2 =>
      (match charFromCode (16 * v1 + v2) with
        | some c' => (parseLiteralBody m q rest).map (fun l => c' :: l)
        | none => none)
    | _, _ => none) = _
  rw [hh1, hh2]
  simp [hc]

/-- A four-digit `\uhhhh` escape decodes through `hexVal` and `charFromCode`. -/
theorem parseBody_u (m : Nat) (q h1 h2 h3 h4 : Char) (v1 v2 v3 v4 : Nat) (c' : Char)
    (rest : List Char)
    (hh1 : hexVal h1 = some v1) (hh2 : hexVal h2 = some v2)
    (hh3 : hexVal h3 = some v3) (hh4 : hexVal h4 = some v4)
    (hc : charFromCode (16 * (16 * (16 * v1 + v2) + v3) + v4) = some c') :
    parseLiteralBody (m + 1) q ('\\' :: 'u' :: h1 :: h2 :: h3 :: h4 :: rest) =
      (parseLiteralBody m q rest).map (fun l => c' :: l) := by
  change (match hexVal h1, hexVal h2, hexVal h3, hexVal h4 with
    | some v1, some v2, some v3, some v4 =>
      (match charFromCode (16 * (16 * (16 * v1 + v2) + v3) + v4) with
        | some c' => (parseLiteralBody m q rest).map (fun l => c' :: l)
        | none => none)
    | _, _, _, _ => none) = _
  rw [hh1, hh2, hh3, hh4]
  simp [hc]

/-- An eight-digit `\Uhhhhhhhh` escape decodes through `hexVal` and
`charFromCode`. -/
theorem parseBody_U8 (m : Nat) (q h1 h2 h3 h4 h5 h6 h7 h8 : Char)
    (v1 v2 v3 v4 v5 v6 v7 v8 : Nat) (c' : Char) (rest : List Char)
    (hh1 : hexVal h1 = some v1) (hh2 : hexVal h2 = some v2)
    (hh3 : hexVal h3 = some v3) (hh4 : hexVal h4 = some v4)
    (hh5 : hexVal h5 = some v5) (hh6 : hexVal h6 = some v6)
    (hh7 : hexVal h7 = some v7) (hh8 : hexVal h8 = some v8)
    (hc : charFromCode (16 * (16 * (16 * (16 * (16 * (16 * (16 * v1 + v2) + v3) + v4) + v5)
      + v6) + v7) + v8) = some c') :
    parseLiteralBody (m + 1) q
        ('\\' :: 'U' :: h1 :: h2 :: h3 :: h4 :: h5 :: h6 :: h7 :: h8 :: rest) =
      (parseLiteralBody m q rest).map (fun l => c' :: l) := by
  change (match hexVal h1, hexVal h2, hexVal h3, hexVal h4,
      hexVal h5, hexVal h6, hexVal h7, hexVal h8 with
    | some v1, some v2, some v3, some v4, some v5, some v6, some v7, some v8 =>
      (match charFromCode (16 * (16 * (16 * (16 * (16 * (16 * (16 * v1 + v2) + v3) + v4) + v5)
          + v6) + v7) + v8) with
        | some c' => (parseLiteralBody m q rest).map (fun l => c' :: l)
        | none => none)
    | _, _, _, _, _, _, _, _ => none) = _
  rw [hh1, hh2, hh3, hh4, hh5, hh6, hh7, hh8]
  simp [hc]

/-- Every escape sequence `escapeChar` emits is decoded back to the
original character by the literal parser, for either Python quote. -/
theorem parseBody_escapeChar (m : Nat) (q c : Char) (hq : q = '\'' ∨ q = '"')
    (rest : List Char) :
    parseLiteralBody (m + 1) q (escapeChar q c ++ rest) =
      (parseLiteralBody m q rest).map (fun l => c :: l) := by
  by_cases h1 : c = '\\'
  · subst h1; rfl
  by_cases h2 : c = q
  · subst h2
    rcases hq with rfl | rfl <;> rfl
  by_cases h3 : c = '\n'
  · subst h3
    rcases hq with rfl | rfl <;> rfl
  by_cases h4 : c = '\r'
  · subst h4
    rcases hq with rfl | rfl <;> rfl
  by_cases h5 : c = '\t'
  · subst h5
    rcases hq with rfl | rfl <;> rfl
  by_cases h6 : pyPrintableAscii c = true
  · have henc : escapeChar q c = [c] := by
      simp only [escapeChar, if_neg h1, if_neg h2, if_neg h3, if_neg h4, if_neg h5, if_pos h6]
    rw [henc]
    exact parseBody_lit m q c h1 h2 rest
  by_cases h7 : c.toNat < 256
  · have henc : escapeChar q c = '\\' :: 'x' :: hex2 c.toNat := by
      simp only [escapeChar, if_neg h1, if_neg h2, if_neg h3, if_neg h4, if_neg h5,
        if_neg h6, if_pos h7]
    rw [henc, hex2]
    exact parseBody_x m q _ _ _ _ c rest
      (hexVal_hexDigitChar (by omega)) (hexVal_hexDigitChar (by omega))
      (by rw [show 16 * (c.toNat / 16 % 16) + c.toNat % 16 = c.toNat from by omega]
          exact charFromCode_toNat c)
  by_cases h8 : c.toNat < 65536
  · have henc : escapeChar q c = '\\' :: 'u' :: hex4 c.toNat := by
      simp only [escapeChar, if_neg h1, if_neg h2, if_neg h3, if_neg h4, if_neg h5,
        if_neg h6, if_neg h7, if_pos h8]
    rw [henc, hex4]
    exact parseBody_u m q _ _ _ _ _ _ _ _ c rest
      (hexVal_hexDigitChar (by omega)) (hexVal_hexDigitChar (by omega))
      (hexVal_hexDigitChar (by omega)) (hexVal_hexDigitChar (by omega))
      (by rw [show 16 * (16 * (16 * (c.toNat / 4096 % 16) + c.toNat / 256 % 16)
                + c.toNat / 16 % 16) + c.toNat % 16 = c.toNat from by omega]
          exact charFromCode_toNat c)
  · have hvalid : c.toNat < 1114112 := by
      have hv : c.toNat.isValidChar := c.valid
      have heq : c.toNat = c.val.toNat := rfl
      rcases hv with h | h
      · omega
      · omega
    have henc : escapeChar q c = '\\' :: 'U' :: hex8 c.toNat := by
      simp only [escapeChar, if_neg h1, if_neg h2, if_neg h3, if_neg h4, if_neg h5,
        if_neg h6, if_neg h7, if_neg h8]
    rw [henc, hex8]
    exact parseBody_U8 m q _ _ _ _ _ _ _ _ _ _ _ _ _ _ _ _ c rest
      (hexVal_hexDigitChar (by omega)) (hexVal_hexDigitChar (by omega))
      (hexVal_hexDigitChar (by omega)) (hexVal_hexDigitChar (by omega))
      (hexVal_hexDigitChar (by omega)) (hexVal_hexDigitChar (by omega))
      (hexVal_hexDigitChar (by omega)) (hexVal_hexDigitChar (by omega))
      (by rw [show 16 * (16 * (16 * (16 * (16 * (16 * (16 * (c.toNat / 268435456 % 16)
                + c.toNat / 16777216 % 16) + c.toNat / 1048576 % 16)
                + c.toNat / 65536 % 16) + c.toNat / 4096 % 16) + c.toNat / 256 % 16)
                + c.toNat / 16 % 16) + c.toNat % 16 = c.toNat from by omega]
          exact charFromCode_toNat c)

/-- A lone closing quote ends the body with the empty decoded string. -/
theorem parseBody_close (f : Nat) (q : Char) (hq : q = '\'' ∨ q = '"') :
    parseLiteralBody (f + 1) q [q] = some [] := by
  rcases hq with rfl | rfl <;> rfl

/-- The encoded body of any character list, followed by the closing quote,
parses back to exactly that list, for any sufficient fuel. -/
theorem parseBody_roundtrip (q : Char) (hq : q = '\'' ∨ q = '"') :
    ∀ (l : List Char) (fuel : Nat), l.length < fuel →
      parseLiteralBody fuel q (l.flatMap (escapeChar q) ++ [q]) = some l := by
  intro l
  induction l with
  | nil =>
    intro fuel hf
    obtain ⟨f, rfl⟩ : ∃ f, fuel = f + 1 := ⟨fuel - 1, by omega⟩
    exact parseBody_close f q hq
  | cons c l ih =>
    intro fuel hf
    obtain ⟨f, rfl⟩ : ∃ f, fuel = f + 1 := ⟨fuel - 1, by omega⟩
    rw [List.flatMap_cons, List.append_assoc, parseBody_escapeChar f q c hq,
      ih f (by simp at hf; omega)]
    rfl

/-- Every escape sequence is at least one character long. -/
theorem escapeChar_length_pos (q c : Char) : 1 ≤ (escapeChar q c).length := by
  unfold escapeChar
  repeat' split
  all_goals simp [hex2, hex4, hex8]

/-- Encoding never shortens a string, so the literal length is enough fuel. -/
theorem length_le_flatMap_escape (q : Char) (l : List Char) :
    l.length ≤ (l.flatMap (escapeChar q)).length := by
  induction l with
  | nil => simp
  | cons c l ih =>
    rw [List.flatMap_cons, List.length_append, List.length_cons]
    have := escapeChar_length_pos q c
    omega

/-- The quote `repr` chooses is one of the two Python quotes. -/
theorem pyReprQuote_cases (s : String) : pyReprQuote s = '\'' ∨ pyReprQuote s = '"' := by
  unfold pyReprQuote
  split
  · exact Or.inr rfl
  · exact Or.inl rfl

/-- `repr` of any string is a literal that parses back to that string. -/
theorem pyRepr_roundtrip (t : String) : parsePyStringLiteral (pyRepr t) = some t := by
  have hq := pyReprQuote_cases t
  have hcond : (pyReprQuote t = '\'' || pyReprQuote t = '"') = true := by
    rcases hq with h | h <;> simp [h]
  have hlen : t.toList.length <
      (t.toList.flatMap (escapeChar (pyReprQuote t)) ++ [pyReprQuote t]).length := by
    rw [List.length_append]
    have := length_le_flatMap_escape (pyReprQuote t) t.toList
    simp only [List.length_cons, List.length_nil]
    omega
  change (if (pyReprQuote t = '\'' || pyReprQuote t = '"') = true then
      (parseLiteralBody
        (t.toList.flatMap (escapeChar (pyReprQuote t)) ++ [pyReprQuote t]).length
        (pyReprQuote t)
        (t.toList.flatMap (escapeChar (pyReprQuote t)) ++ [pyReprQuote t])).map String.mk
    else none) = some t
  rw [if_pos hcond, parseBody_roundtrip (pyReprQuote t) hq t.toList _ hlen]
  rfl

/-- C7: every recorded `set_text` value and every `scroll_to_text` target
(in particular any value containing a quote character) is rendered by the
emitter as the Python `repr` literal, and parsing that literal back yields
exactly the original string, so an embedded quote never breaks the emitted
statement. -/
theorem claim_C7_repr_roundtrip :
    (∀ t : String, parsePyStringLiteral (pyRepr t) = some t) ∧
    (∀ (sel : Selector) (t desc : String),
      emitActionLines (Action.set_text sel t desc) =
        ["    d(" ++ build_selector_string sel ++ ").set_text(" ++ pyRepr t ++ ")",
         sleepLine]) ∧
    (∀ (sel : Selector) (t d desc : String),
      emitActionLines (Action.scroll_to_text sel t d desc) =
        ["    d(" ++ build_selector_string sel ++ ").scroll.to(text=" ++ pyRepr t ++ ")",
         sleepLine]) :=
  ⟨pyRepr_roundtrip, fun _ _ _ => rfl, fun _ _ _ _ => rfl⟩


end UiAutomatorSpec
